import Mathlib

/-!
Verification development for the docking-by-rerun prototype
(`my_scripts/dock_minimal.py`).

The Python source is shallowly embedded: text is `List Char`, files are
lists of lines (`List (List Char)`), machine floats are modelled as `ℚ`
(the spec's round-trip and centroid properties are stated up to rounding /
over the rationals), and randomness is modelled by passing the drawn
values explicitly.  Fallible code returns `Option` / `Except`, with an
inductive error type whose constructors correspond to the distinct raise
sites of the Python code.
-/

set_option maxHeartbeats 1000000
set_option maxRecDepth 4096

set_option allowUnsafeReducibility true
attribute [semireducible] Rat.add Rat.mul Rat.inv Rat.sub Rat.ofScientific

/-! ### Text primitives mirroring Python `str` operations -/

/-- Python `str.strip()`: drop leading and trailing whitespace. -/
def pyStrip (l : List Char) : List Char :=
  ((l.dropWhile Char.isWhitespace).reverse.dropWhile Char.isWhitespace).reverse

/-- Helper for `pySplit`; `cur` holds the token being read, reversed. -/
def pySplitAux : List Char → List Char → List (List Char)
  | [], cur => if cur = [] then [] else [cur.reverse]
  | c :: cs, cur =>
    if c.isWhitespace then
      if cur = [] then pySplitAux cs [] else cur.reverse :: pySplitAux cs []
    else pySplitAux cs (c :: cur)

/-- Python `str.split()` with no separator: split on runs of whitespace,
dropping empty tokens. -/
def pySplit (l : List Char) : List (List Char) :=
  pySplitAux l []

/-- The decimal digit character for `d % 10`-style values below ten. -/
def dChar : ℕ → Char
  | 0 => '0'
  | 1 => '1'
  | 2 => '2'
  | 3 => '3'
  | 4 => '4'
  | 5 => '5'
  | 6 => '6'
  | 7 => '7'
  | 8 => '8'
  | _ => '9'

/-- Fuel-bounded digit expansion; any fuel above the value itself is
enough, so `natToChars` below is total and computes by reduction. -/
def natToCharsFuel : ℕ → ℕ → List Char
  | 0, _ => []
  | fuel + 1, n =>
    if n < 10 then [dChar n] else natToCharsFuel fuel (n / 10) ++ [dChar (n % 10)]

/-- Decimal digit string of a natural number (Python `str` on a
non-negative `int`). -/
def natToChars (n : ℕ) : List Char :=
  natToCharsFuel (n + 1) n

theorem natToCharsFuel_congr : ∀ n fuel fuel', n < fuel → n < fuel' →
    natToCharsFuel fuel n = natToCharsFuel fuel' n := by
  intro n
  induction n using Nat.strong_induction_on with
  | _ n ih =>
    intro fuel fuel' h h'
    match fuel, fuel' with
    | f + 1, f' + 1 =>
      by_cases h10 : n < 10
      · simp [natToCharsFuel, h10]
      · simp only [natToCharsFuel, if_neg h10]
        have hd : n / 10 < n := Nat.div_lt_self (by omega) (by omega)
        rw [ih (n / 10) hd (f) (f') (by omega) (by omega)]

/-- The defining recursion of `natToChars`. -/
theorem natToChars_eq (n : ℕ) :
    natToChars n = if n < 10 then [dChar n] else natToChars (n / 10) ++ [dChar (n % 10)] := by
  unfold natToChars
  by_cases h10 : n < 10
  · simp [natToCharsFuel, h10]
  · simp only [natToCharsFuel, if_neg h10]
    have hd : n / 10 < n := Nat.div_lt_self (by omega) (by omega)
    rw [natToCharsFuel_congr (n / 10) n (n / 10 + 1) (by omega) (by omega)]
    rfl

/-- Decimal string of an integer (Python `str` on an `int`). -/
def intToChars (i : ℤ) : List Char :=
  if i < 0 then '-' :: natToChars i.natAbs else natToChars i.natAbs

/-- Numeric value of a digit string (most significant digit first). -/
def digitsVal (l : List Char) : ℕ :=
  l.foldl (fun a c => 10 * a + (c.toNat - 48)) 0

/-- Parse a non-empty all-digit string, as used inside Python `int()`. -/
def parseDigits? (l : List Char) : Option ℕ :=
  if l ≠ [] ∧ l.all Char.isDigit then some (digitsVal l) else none

/-- Python `int(s)`: strip whitespace, optional sign, then decimal digits
only.  (Underscore digit separators are not modelled; none of the inputs
the program manipulates contain them.) -/
def parseInt? (s : List Char) : Option ℤ :=
  match pyStrip s with
  | [] => none
  | c :: cs =>
    if c = '-' then (parseDigits? cs).map (fun n => -(n : ℤ))
    else if c = '+' then (parseDigits? cs).map (fun n => (n : ℤ))
    else (parseDigits? (c :: cs)).map (fun n => (n : ℤ))

/-- Parse an optionally signed exponent (the part after `e`/`E`). -/
def parseExp? (l : List Char) : Option ℤ :=
  match l with
  | [] => none
  | c :: cs =>
    if c = '-' then (parseDigits? cs).map (fun n => -(n : ℤ))
    else if c = '+' then (parseDigits? cs).map (fun n => (n : ℤ))
    else (parseDigits? (c :: cs)).map (fun n => (n : ℤ))

/-- Unsigned part of Python `float(s)`: `digits`, `digits.`, `digits.digits`,
`.digits`, each optionally followed by an exponent.  (`inf`/`nan` literals
are not modelled; the program never feeds them to `float`.) -/
def parseUFloat? (l : List Char) : Option ℚ :=
  let ip := l.takeWhile Char.isDigit
  match l.dropWhile Char.isDigit with
  | [] => if ip = [] then none else some (digitsVal ip : ℚ)
  | c :: r2 =>
    if c = '.' then
      let fp := r2.takeWhile Char.isDigit
      let r3 := r2.dropWhile Char.isDigit
      if ip = [] ∧ fp = [] then none
      else
        let base : ℚ := (digitsVal ip : ℚ) + (digitsVal fp : ℚ) / (10 : ℚ) ^ fp.length
        match r3 with
        | [] => some base
        | e :: r4 =>
          if e = 'e' ∨ e = 'E' then (parseExp? r4).map (fun k => base * (10 : ℚ) ^ k)
          else none
    else if (c = 'e' ∨ c = 'E') ∧ ip ≠ [] then
      (parseExp? r2).map (fun k => (digitsVal ip : ℚ) * (10 : ℚ) ^ k)
    else none

/-- Python `float(s)`: strip whitespace, optional sign, unsigned float. -/
def parseFloat? (s : List Char) : Option ℚ :=
  match pyStrip s with
  | [] => none
  | c :: cs =>
    if c = '-' then (parseUFloat? cs).map (fun q => -q)
    else if c = '+' then parseUFloat? cs
    else parseUFloat? (c :: cs)

/-- Right-align a string in a field of width `w` (Python `f"{v:w}"` /
`f"{v:>w}"`): pad on the left with spaces, never truncate. -/
def padLeft (w : ℕ) (l : List Char) : List Char :=
  List.replicate (w - l.length) ' ' ++ l

/-- Left-pad a digit string with zeros to width `w`. -/
def zeroPad (w : ℕ) (l : List Char) : List Char :=
  List.replicate (w - l.length) '0' ++ l

/-- Python `f"{i:wd}"`: decimal integer right-aligned in width `w`. -/
def fmtInt (i : ℤ) (w : ℕ) : List Char :=
  padLeft w (intToChars i)

/-- The digits (with sign and decimal point) of Python `f"{q:.precf}"`:
the value rounded to `prec` decimals, written with exactly `prec` fraction
digits.  Python rounds the underlying binary double half-to-even; the
model rounds the rational exactly, which agrees except on representation
ties that the claims do not depend on. -/
def fmtFixedCore (q : ℚ) (prec : ℕ) : List Char :=
  let m : ℤ := round (q * (10 : ℚ) ^ prec)
  let digits := natToChars (m.natAbs / 10 ^ prec) ++
    '.' :: zeroPad prec (natToChars (m.natAbs % 10 ^ prec))
  if m < 0 then '-' :: digits else digits

/-- Python `f"{q:w.precf}"`: fixed-point format right-aligned in width `w`. -/
def fmtFixed (q : ℚ) (prec w : ℕ) : List Char :=
  padLeft w (fmtFixedCore q prec)

/-- Python slice `s[a:b]` on a string, with clamping semantics for
non-negative bounds. -/
def pySlice (l : List Char) (a b : ℕ) : List Char :=
  (l.drop a).take (b - a)

/-! ### Structure Model (`read_gro` / `write_gro`) -/

/-- One atom record of a GRO structure file (`AtomRecord` dataclass). -/
structure AtomRecord where
  resid : ℤ
  resname : List Char
  atomname : List Char
  atomnr : ℤ
  x : ℚ
  y : ℚ
  z : ℚ
  deriving DecidableEq, Repr

/-- Default atom used by the total `List.getD` accesses; all theorems about
atom access carry in-range hypotheses, matching Python's raising semantics. -/
def dfltAtom : AtomRecord := ⟨0, [], [], 0, 0, 0, 0⟩

/-- A parsed GRO structure (`GroStructure` dataclass). -/
structure GroStructure where
  title : List Char
  atoms : List AtomRecord
  box : ℚ × ℚ × ℚ
  deriving DecidableEq, Repr

/-- The distinct failure sites of `read_gro`.  `malformedAtomLine` is the
explicit `raise ValueError(f"Malformed GRO atom line: ...")`; `fallbackNumeric`
is an uncaught `ValueError` from `int`/`float`/tuple unpacking inside the
whitespace-fallback branch; `missingBoxLine` is the `IndexError` surfaced when
`lines[2 + natoms]` does not exist. -/
inductive GroError where
  | tooShort
  | invalidAtomCount (ln : List Char)
  | atomCountMismatch
  | malformedAtomLine (ln : List Char)
  | fallbackNumeric (ln : List Char)
  | missingBoxLine
  | invalidBoxLine (ln : List Char)
  deriving DecidableEq, Repr

/-- The fixed-column branch of `read_gro`'s atom-line parser: columns
0-5 resid, 5-10 resname, 10-15 atomname, 15-20 atomnr, then three 8-char
float fields.  Returns `none` when any numeric field fails to parse,
which triggers the whitespace fallback. -/
def fixedParse (ln : List Char) : Option AtomRecord := do
  let resid ← parseInt? (pySlice ln 0 5)
  let resname := pyStrip (pySlice ln 5 10)
  let atomname := pyStrip (pySlice ln 10 15)
  let atomnr ← parseInt? (pySlice ln 15 20)
  let x ← parseFloat? (pySlice ln 20 28)
  let y ← parseFloat? (pySlice ln 28 36)
  let z ← parseFloat? (pySlice ln 36 44)
  pure ⟨resid, resname, atomname, atomnr, x, y, z⟩

/-- One atom line of `read_gro`: fixed columns first, else whitespace
tokens `resid resname atomname atomnr x y z`.  A line with fewer than 6
tokens raises the explicit malformed-line error; a numeric parse failure
or the 3-way unpack of `parts[4:7]` failing raises an uncaught
`ValueError`, modelled by `fallbackNumeric`. -/
def parseAtomLine (ln : List Char) : Except GroError AtomRecord :=
  match fixedParse ln with
  | some a => .ok a
  | none =>
    let parts := pySplit ln
    if parts.length < 6 then .error (.malformedAtomLine ln)
    else
      match parseInt? (parts.getD 0 []), parseInt? (parts.getD 3 []),
          (parts.drop 4).take 3 with
      | some resid, some atomnr, [sx, sy, sz] =>
        match parseFloat? sx, parseFloat? sy, parseFloat? sz with
        | some x, some y, some z =>
          .ok ⟨resid, parts.getD 1 [], parts.getD 2 [], atomnr, x, y, z⟩
        | _, _, _ => .error (.fallbackNumeric ln)
      | _, _, _ => .error (.fallbackNumeric ln)

/-- Parse the atom lines in order, propagating the first failure. -/
def parseAtoms : List (List Char) → Except GroError (List AtomRecord)
  | [] => .ok []
  | ln :: rest => do
    let a ← parseAtomLine ln
    let tl ← parseAtoms rest
    pure (a :: tl)

/-- `read_gro`, on the list of lines of the file (each line without its
trailing newline, as produced by the `ln.rstrip("\n")` loop). -/
def read_gro (lines : List (List Char)) : Except GroError GroStructure :=
  if lines.length < 3 then .error .tooShort
  else
    match parseInt? (pyStrip (lines.getD 1 [])) with
    | none => .error (.invalidAtomCount (lines.getD 1 []))
    | some natoms =>
      let atom_lines := (lines.drop 2).take natoms.toNat
      if natoms < 0 ∨ atom_lines.length ≠ natoms.toNat then .error .atomCountMismatch
      else
        match parseAtoms atom_lines with
        | .error e => .error e
        | .ok atoms =>
          match (lines.drop (2 + natoms.toNat)).head? with
          | none => .error .missingBoxLine
          | some bl =>
            let parts := pySplit bl
            if parts.length < 3 then .error (.invalidBoxLine bl)
            else
              match parseFloat? (parts.getD 0 []), parseFloat? (parts.getD 1 []),
                  parseFloat? (parts.getD 2 []) with
              | some b1, some b2, some b3 => .ok ⟨lines.getD 0 [], atoms, (b1, b2, b3)⟩
              | _, _, _ => .error (.invalidBoxLine bl)

/-- One atom line of `write_gro`:
`f"{resid:5d}{resname:>5s}{atomname:>5s}{atomnr:5d}{x:8.3f}{y:8.3f}{z:8.3f}"`. -/
def writeAtomLine (a : AtomRecord) : List Char :=
  fmtInt a.resid 5 ++ padLeft 5 a.resname ++ padLeft 5 a.atomname ++
    fmtInt a.atomnr 5 ++ fmtFixed a.x 3 8 ++ fmtFixed a.y 3 8 ++ fmtFixed a.z 3 8

/-- The box line of `write_gro`:
`f"{b1:10.5f} {b2:10.5f} {b3:10.5f}"`. -/
def writeBoxLine (b : ℚ × ℚ × ℚ) : List Char :=
  fmtFixed b.1 5 10 ++ ' ' :: fmtFixed b.2.1 5 10 ++ ' ' :: fmtFixed b.2.2 5 10

/-- `write_gro`, as the list of lines written to the file. -/
def write_gro (s : GroStructure) : List (List Char) :=
  s.title :: fmtInt (s.atoms.length : ℤ) 5 ::
    (s.atoms.map writeAtomLine ++ [writeBoxLine s.box])

/-! ### Group Index Model (`parse_ndx_groups`) -/

/-- Lookup in an insertion-ordered association list (Python dict read). -/
def dictLookup (k : List Char) : List (List Char × List ℤ) → Option (List ℤ)
  | [] => none
  | (k', v) :: tl => if k' = k then some v else dictLookup k tl

/-- Python `groups[k] = v`: overwrite in place if the key exists (keys of a
Python dict are unique, so mapping every matching entry is equivalent),
else append a new entry. -/
def dictSet (d : List (List Char × List ℤ)) (k : List Char) (v : List ℤ) :
    List (List Char × List ℤ) :=
  if d.any (fun p => p.1 = k) then d.map (fun p => if p.1 = k then (k, v) else p)
  else d ++ [(k, v)]

/-- Python `groups[k].append(i)`. -/
def dictAppend (d : List (List Char × List ℤ)) (k : List Char) (i : ℤ) :
    List (List Char × List ℤ) :=
  d.map (fun p => if p.1 = k then (p.1, p.2 ++ [i]) else p)

/-- Test of `ln.startswith("[") and ln.endswith("]")` on a stripped line. -/
def isNdxHeader (s : List Char) : Bool :=
  s.head? = some '[' ∧ s.getLast? = some ']'

/-- `ln[1:-1]` of a header line. -/
def ndxHeaderName (s : List Char) : List Char :=
  (s.drop 1).dropLast

/-- One iteration of the `parse_ndx_groups` loop; the state is the group
dict so far and the current group name. -/
def ndxStep (st : List (List Char × List ℤ) × Option (List Char)) (ln : List Char) :
    List (List Char × List ℤ) × Option (List Char) :=
  let s := pyStrip ln
  if s = [] then st
  else if isNdxHeader s then
    let name := pyStrip (ndxHeaderName s)
    (dictSet st.1 name [], some name)
  else
    match st.2 with
    | none => st
    | some cur =>
      ((pySplit s).foldl
        (fun g tok => match parseInt? tok with
          | some i => dictAppend g cur i
          | none => g) st.1, some cur)

/-- `parse_ndx_groups`, on the list of lines of the index file. -/
def parse_ndx_groups (lines : List (List Char)) : List (List Char × List ℤ) :=
  (lines.foldl ndxStep ([], none)).1

/-! ### Rigid Transform Generator -/

/-- A 3x3 matrix, written out as the nine entries of the nested-list
matrix the Python code builds. -/
structure Mat3 where
  m00 : ℚ
  m01 : ℚ
  m02 : ℚ
  m10 : ℚ
  m11 : ℚ
  m12 : ℚ
  m20 : ℚ
  m21 : ℚ
  m22 : ℚ
  deriving DecidableEq, Repr

/-- The identity matrix returned for non-positive maximum rotation. -/
def idMat3 : Mat3 := ⟨1, 0, 0, 0, 1, 0, 0, 0, 1⟩

/-- The random draws consumed by `random_rotation_matrix` when the
maximum rotation is positive: the cosine and sine of the drawn angle and
the normalized drawn axis.  `cos`/`sin` of the drawn angle are
irrational reals in general, so the model takes the drawn trigonometric
values themselves as inputs; the claims settled here only concern the
non-positive branch and hold for arbitrary matrices. -/
structure RotDraw where
  cosv : ℚ
  sinv : ℚ
  ax : ℚ
  ay : ℚ
  az : ℚ
  deriving DecidableEq, Repr

/-- `random_rotation_matrix`: identity when `max_deg <= 0`, otherwise the
Rodrigues axis-angle matrix built from the drawn angle and axis, entry
for entry as in the source. -/
def random_rotation_matrix (max_deg : ℚ) (d : RotDraw) : Mat3 :=
  if max_deg ≤ 0 then idMat3
  else
    let c := d.cosv
    let s := d.sinv
    let C := 1 - d.cosv
    let x := d.ax
    let y := d.ay
    let z := d.az
    ⟨x * x * C + c, x * y * C - z * s, x * z * C + y * s,
     y * x * C + z * s, y * y * C + c, y * z * C - x * s,
     z * x * C - y * s, z * y * C + x * s, z * z * C + c⟩

/-- The centroid `(cx, cy, cz)` of the atoms selected by the 1-based
indices, computed exactly as in `apply_rigid_transform` (list of the
selected coordinates, summed and divided by the list length). -/
def subsetCentroid (s : GroStructure) (idxs : List ℕ) : ℚ × ℚ × ℚ :=
  let sel := idxs.map (fun i => s.atoms.getD (i - 1) dfltAtom)
  (((sel.map (·.x)).sum) / sel.length,
   ((sel.map (·.y)).sum) / sel.length,
   ((sel.map (·.z)).sum) / sel.length)

/-- The loop body of `apply_rigid_transform`: subtract the centroid,
apply the rotation rows, add back the centroid and the translation. -/
def transformAtom (R : Mat3) (c t : ℚ × ℚ × ℚ) (a : AtomRecord) : AtomRecord :=
  let rx := a.x - c.1
  let ry := a.y - c.2.1
  let rz := a.z - c.2.2
  { a with
    x := R.m00 * rx + R.m01 * ry + R.m02 * rz + c.1 + t.1
    y := R.m10 * rx + R.m11 * ry + R.m12 * rz + c.2.1 + t.2.1
    z := R.m20 * rx + R.m21 * ry + R.m22 * rz + c.2.2 + t.2.2 }

/-- `apply_rigid_transform`, with the drawn translation `t` and rotation
matrix `R` passed explicitly (the source draws them from the global RNG
just before the loop).  The update loop reads and writes `atoms[i]` per
0-based index exactly as the source does. -/
def apply_rigid_transform (s : GroStructure) (idxs : List ℕ) (t : ℚ × ℚ × ℚ)
    (R : Mat3) : GroStructure :=
  let lig0 := idxs.map (fun i => i - 1)
  let c := subsetCentroid s idxs
  let atoms := lig0.foldl
    (fun ats i => ats.set i (transformAtom R c t (ats.getD i dfltAtom))) s.atoms
  ⟨s.title, atoms, s.box⟩

/-! ### External Engine Adapter (`extract_energy_sum`) -/

/-- Failures of the composed scoring contract: the missing-term
`RuntimeError` (the spec's `ConfigurationError`), naming the missing
term names, and the no-data `RuntimeError` (the spec's
`ExtractionError`). -/
inductive ScoreError where
  | configMissing (missing : List (List Char))
  | noData
  deriving DecidableEq, Repr

/-- The parse of one line of the `.xvg` table inside the extraction loop:
strip; skip empty, `#`- and `@`-prefixed lines; split; require at least 3
fields whose first three parse as floats. -/
def rowVals (ln : List Char) : Option (ℚ × ℚ × ℚ) :=
  match pyStrip ln with
  | [] => none
  | c :: cs =>
    if c = '#' ∨ c = '@' then none
    else
      let parts := pySplit (c :: cs)
      if parts.length ≥ 3 then
        match parseFloat? (parts.getD 0 []), parseFloat? (parts.getD 1 []),
            parseFloat? (parts.getD 2 []) with
        | some t, some v1, some v2 => some (t, v1, v2)
        | _, _, _ => none
      else none

/-- The `last_vals` accumulation loop over the `.xvg` lines. -/
def lastVals (lines : List (List Char)) : Option (ℚ × ℚ × ℚ) :=
  lines.foldl
    (fun acc ln => match rowVals ln with
      | some v => some v
      | none => acc) none

/-- The tail of `extract_energy_sum`: take `v1 + v2` from the last parsed
data row, failing when no row parsed. -/
def extractLastFrame (lines : List (List Char)) : Except ScoreError ℚ :=
  match lastVals lines with
  | none => .error .noData
  | some (_, v1, v2) => .ok (v1 + v2)

/-- The required-term check of `extract_energy_sum`:
`[t for t in term_names if t not in mapping]`. -/
def termMissing (mapping : List Char → Option ℕ) (t1 t2 : List Char) :
    List (List Char) :=
  [t1, t2].filter (fun t => (mapping t).isNone)

/-- The selection step of `extract_energy_sum`: fail with the
missing-term error when either required term is absent from the listed
mapping, otherwise return the two term indices fed to `gmx energy`. -/
def selectTerms (mapping : List Char → Option ℕ) (t1 t2 : List Char) :
    Except ScoreError (ℕ × ℕ) :=
  match mapping t1, mapping t2 with
  | some i1, some i2 => .ok (i1, i2)
  | _, _ => .error (.configMissing (termMissing mapping t1 t2))

/-- `extract_energy_sum`: list the term mapping, check the two required
term names, select their indices, run the extraction, and parse the last
frame of the resulting table.  The external `gmx energy` invocation is
modelled by `engineOut`, mapping the two selected indices to the lines
of the `.xvg` file it writes (its possible non-zero exit is a separate
`ExternalToolError` not involved in the claims settled here). -/
def extract_energy_sum (mapping : List Char → Option ℕ) (t1 t2 : List Char)
    (engineOut : ℕ → ℕ → List (List Char)) : Except ScoreError ℚ :=
  match selectTerms mapping t1 t2 with
  | .error e => .error e
  | .ok (i1, i2) => extractLastFrame (engineOut i1 i2)

/-! ### Docking Orchestrator (collection, sorting, ranking) -/

/-- Stable ascending insertion by score into an already-sorted list; the
element being inserted precedes existing equal-score elements it is
compared against, which is exactly the stability contract of Python's
`list.sort(key=lambda t: t[1])`. -/
def insertByScore (x : ℕ × ℚ) : List (ℕ × ℚ) → List (ℕ × ℚ)
  | [] => [x]
  | y :: ys => if x.2 ≤ y.2 then x :: y :: ys else y :: insertByScore x ys

/-- `results.sort(key=lambda t: t[1])` as a stable sort on the collected
`(pose_id, score)` pairs.  (The third tuple component of the source, the
candidate file path `candidate_%04d.gro`, is a function of the pose id
and is omitted from the pair.)  Python's sort is stable, and every
stable ascending-by-score sort computes the same list, so insertion sort
is the semantics of the source's Timsort call. -/
def pySortByScore : List (ℕ × ℚ) → List (ℕ × ℚ)
  | [] => []
  | x :: xs => insertByScore x (pySortByScore xs)

/-- The sequential collection loop (`jobs <= 1`): evaluate pose ids
`0..n-1` in order, append successes, skip failures.  `eval i = none`
models `run_pose` raising for pose `i` (engine failure or extraction
failure), which `main` catches and logs. -/
def collectSequential (eval : ℕ → Option ℚ) (n : ℕ) : List (ℕ × ℚ) :=
  (List.range n).filterMap (fun i => (eval i).map (fun sc => (i, sc)))

/-- A possible collected result list of a run: under `jobs <= 1` it is
`collectSequential` itself; under a concurrent pool, `as_completed`
yields the same successful results in an arbitrary order, i.e. any
permutation of the sequential collection. -/
def CollectedFrom (eval : ℕ → Option ℚ) (n : ℕ) (results : List (ℕ × ℚ)) : Prop :=
  results.Perm (collectSequential eval n)

/-- The ranked table written to `scores.csv` for a collected result list. -/
def rankedTable (results : List (ℕ × ℚ)) : List (ℕ × ℚ) :=
  pySortByScore results

/-- The ordering the spec claims for the ranked table: strictly ascending
in score with ties broken by ascending pose id. -/
def scoreLex (a b : ℕ × ℚ) : Prop :=
  a.2 < b.2 ∨ (a.2 = b.2 ∧ a.1 < b.1)

instance : DecidableRel scoreLex := fun a b => by
  unfold scoreLex
  infer_instance

/-! ### Sorting lemmas -/

theorem insertByScore_perm (x : ℕ × ℚ) (l : List (ℕ × ℚ)) :
    (insertByScore x l).Perm (x :: l) := by
  induction l with
  | nil => simp [insertByScore]
  | cons y ys ih =>
    by_cases h : x.2 ≤ y.2
    · simp [insertByScore, h]
    · simp only [insertByScore, if_neg h]
      exact (ih.cons y).trans (List.Perm.swap x y ys)

theorem pySortByScore_perm (l : List (ℕ × ℚ)) : (pySortByScore l).Perm l := by
  induction l with
  | nil => simp [pySortByScore]
  | cons x xs ih => exact (insertByScore_perm x (pySortByScore xs)).trans (ih.cons x)

theorem insertByScore_pairwise (x : ℕ × ℚ) (l : List (ℕ × ℚ))
    (hl : l.Pairwise scoreLex) (hx : ∀ y ∈ l, y.2 = x.2 → x.1 < y.1) :
    (insertByScore x l).Pairwise scoreLex := by
  induction l with
  | nil => simp [insertByScore]
  | cons y ys ih =>
    rcases List.pairwise_cons.mp hl with ⟨hy, hys⟩
    by_cases h : x.2 ≤ y.2
    · simp only [insertByScore, if_pos h]
      refine List.pairwise_cons.mpr ⟨?_, hl⟩
      intro z hz
      rcases List.mem_cons.mp hz with rfl | hz
      · rcases lt_or_eq_of_le h with h' | h'
        · exact Or.inl h'
        · exact Or.inr ⟨h', hx z (by simp) h'.symm⟩
      · have hyz : y.2 ≤ z.2 := by
          rcases hy z hz with h' | ⟨h', _⟩
          · exact le_of_lt h'
          · exact le_of_eq h'
        rcases lt_or_eq_of_le (le_trans h hyz) with h' | h'
        · exact Or.inl h'
        · exact Or.inr ⟨h', hx z (List.mem_cons_of_mem y hz) h'.symm⟩
    · simp only [insertByScore, if_neg h]
      refine List.pairwise_cons.mpr
        ⟨?_, ih hys (fun z hz hz2 => hx z (List.mem_cons_of_mem y hz) hz2)⟩
      intro z hz
      have hz' : z = x ∨ z ∈ ys := by
        have := (insertByScore_perm x ys).mem_iff.mp hz
        simpa using this
      rcases hz' with rfl | hz'
      · exact Or.inl (lt_of_not_le h)
      · exact hy z hz'

/-- Claim C1 (counterexample): with two poses of equal score collected in
the order pose 1 then pose 0 — a possible `as_completed` collection order
of a concurrent run — the ranked table keeps pose 1 before pose 0, so the
claimed pose-id ascending tie-break does not hold for every collection
order. -/
theorem c1_counterexample :
    CollectedFrom (fun _ => some 0) 2 [(1, 0), (0, 0)] ∧
    rankedTable [(1, (0 : ℚ)), (0, 0)] = [(1, 0), (0, 0)] ∧
    ¬ (rankedTable [(1, (0 : ℚ)), (0, 0)]).Pairwise scoreLex := by
  refine ⟨?_, by decide, ?_⟩
  · unfold CollectedFrom collectSequential
    exact List.Perm.swap (0, 0) (1, 0) []
  · intro h
    have htab : rankedTable [(1, (0 : ℚ)), (0, 0)] = [(1, 0), (0, 0)] := by decide
    rw [htab] at h
    have h1 := (List.pairwise_cons.mp h).1 (0, 0) (by simp)
    rcases h1 with h2 | ⟨_, h3⟩
    · exact absurd h2 (lt_irrefl 0)
    · omega

/-- Claim C1 (amended): the ranked table is a permutation of the collected
results, sorted ascending by score; ties are kept in collection order, so
whenever the results are collected in pose-id ascending order (in
particular for every `jobs <= 1` run) equal-score poses appear with the
smaller `pose_id` first. -/
theorem c1_ranked_table_tiebreak_amended (results : List (ℕ × ℚ))
    (h : results.Pairwise (fun a b => a.1 < b.1)) :
    (rankedTable results).Perm results ∧ (rankedTable results).Pairwise scoreLex := by
  refine ⟨pySortByScore_perm results, ?_⟩
  induction results with
  | nil => simp [rankedTable, pySortByScore]
  | cons x xs ih =>
    rcases List.pairwise_cons.mp h with ⟨hx, hxs⟩
    unfold rankedTable pySortByScore
    refine insertByScore_pairwise x (pySortByScore xs) (ih hxs) ?_
    intro y hy _
    exact hx y ((pySortByScore_perm xs).mem_iff.mp hy)

/-- Witness for C1 (amended) at a concrete sequentially-collected run. -/
theorem c1_witness :
    (rankedTable [(0, (5 : ℚ)), (1, 5), (2, 3)]).Perm [(0, (5 : ℚ)), (1, 5), (2, 3)] ∧
    (rankedTable [(0, (5 : ℚ)), (1, 5), (2, 3)]).Pairwise scoreLex :=
  c1_ranked_table_tiebreak_amended [(0, (5 : ℚ)), (1, 5), (2, 3)] (by decide)

/-- Claim C2: relative to any possible collection order of the successful
results, a pose id appears in the ranked table with score `sc` exactly
when its evaluation succeeded with score `sc`; a failed pose is absent,
and all other poses are unaffected by the failure. -/
theorem c2_failed_pose_omitted (eval : ℕ → Option ℚ) (n : ℕ)
    (results : List (ℕ × ℚ)) (h : CollectedFrom eval n results) (i : ℕ) :
    (∀ sc : ℚ, ((i, sc) ∈ rankedTable results ↔ i < n ∧ eval i = some sc)) ∧
    (eval i = none → ∀ sc : ℚ, (i, sc) ∉ rankedTable results) := by
  have hmem : ∀ sc : ℚ, ((i, sc) ∈ rankedTable results ↔ i < n ∧ eval i = some sc) := by
    intro sc
    have h1 : (i, sc) ∈ rankedTable results ↔ (i, sc) ∈ results :=
      (pySortByScore_perm results).mem_iff
    have h2 : (i, sc) ∈ results ↔ (i, sc) ∈ collectSequential eval n := h.mem_iff
    rw [h1, h2]
    unfold collectSequential
    rw [List.mem_filterMap]
    constructor
    · rintro ⟨j, hj, hfj⟩
      rcases Option.map_eq_some.mp hfj with ⟨v, hv, heq⟩
      cases heq
      exact ⟨List.mem_range.mp hj, hv⟩
    · rintro ⟨hi, hv⟩
      exact ⟨i, List.mem_range.mpr hi, by rw [hv]; rfl⟩
  refine ⟨hmem, ?_⟩
  intro hnone sc hmem'
  have := (hmem sc).mp hmem'
  rw [hnone] at this
  exact Option.noConfusion this.2

/-- Witness for C2: pose 1 fails out of three; it is absent from the
table while poses 0 and 2 are present. -/
theorem c2_witness :
    ((1, (7 : ℚ)) ∉ rankedTable [(0, (5 : ℚ)), (2, 3)]) ∧
    ((0, (5 : ℚ)) ∈ rankedTable [(0, (5 : ℚ)), (2, 3)]) := by
  have h := c2_failed_pose_omitted
    (fun i => if i = 1 then none else some (if i = 0 then 5 else 3)) 3
    [(0, (5 : ℚ)), (2, 3)] (by unfold CollectedFrom collectSequential; decide)
  exact ⟨(h 1).2 (by decide) 7, ((h 0).1 5).mpr (by decide)⟩

/-! ### Adapter lemmas -/

theorem getLast?_cons_match {α : Type} (a : α) (l : List α) :
    (a :: l).getLast? = (match l.getLast? with
      | some w => some w
      | none => some a) := by
  cases l with
  | nil => simp
  | cons b tl =>
    rw [List.getLast?_cons_cons]
    have h : (b :: tl).getLast? ≠ none := by
      simp [List.getLast?_eq_none_iff]
    cases hlast : (b :: tl).getLast? with
    | none => exact absurd hlast h
    | some w => simp

theorem lastVals_foldl (lines : List (List Char)) :
    ∀ acc : Option (ℚ × ℚ × ℚ),
      lines.foldl (fun acc ln => match rowVals ln with
        | some v => some v
        | none => acc) acc =
      (match (lines.filterMap rowVals).getLast? with
        | some v => some v
        | none => acc) := by
  induction lines with
  | nil => intro acc; simp
  | cons ln tl ih =>
    intro acc
    rw [List.foldl_cons, List.filterMap_cons]
    cases hrow : rowVals ln with
    | none => simp only [hrow]; exact ih acc
    | some v =>
      simp only [hrow]
      rw [ih (some v), getLast?_cons_match v (tl.filterMap rowVals)]
      cases (tl.filterMap rowVals).getLast? <;> simp

theorem lastVals_eq_getLast (lines : List (List Char)) :
    lastVals lines = (lines.filterMap rowVals).getLast? := by
  unfold lastVals
  rw [lastVals_foldl lines none]
  cases (lines.filterMap rowVals).getLast? <;> simp

/-- Claim C8: the extraction step returns `value1 + value2` from the last
line that parses as a data row (stripped, non-`#`/`@`, at least three
fields, first three parsing as floats — `rowVals`), and fails with the
no-data error exactly when no line of the file parses as a data row. -/
theorem c8_extract_last_row (lines : List (List Char)) :
    (extractLastFrame lines = .error .noData ↔ ∀ ln ∈ lines, rowVals ln = none) ∧
    (∀ t v1 v2 : ℚ, (lines.filterMap rowVals).getLast? = some (t, v1, v2) →
      extractLastFrame lines = .ok (v1 + v2)) := by
  constructor
  · unfold extractLastFrame
    rw [lastVals_eq_getLast]
    constructor
    · intro h
      cases hlast : (lines.filterMap rowVals).getLast? with
      | none =>
        intro ln hln
        by_contra hne
        have hmem : ∃ v, v ∈ lines.filterMap rowVals := by
          cases hv : rowVals ln with
          | none => exact absurd hv hne
          | some v => exact ⟨v, List.mem_filterMap.mpr ⟨ln, hln, hv⟩⟩
        rcases hmem with ⟨v, hv⟩
        have : lines.filterMap rowVals ≠ [] := List.ne_nil_of_mem hv
        exact this (List.getLast?_eq_none_iff.mp hlast)
      | some v =>
        rw [hlast] at h
        obtain ⟨_, v1, v2⟩ := v
        exact Except.noConfusion h
    · intro h
      have : lines.filterMap rowVals = [] := List.filterMap_eq_nil_iff.mpr h
      rw [this]
      rfl
  · intro t v1 v2 h
    unfold extractLastFrame
    rw [lastVals_eq_getLast, h]

/-- Witness for C8: a table with comment, metadata, two data rows and a
junk line extracts `3 + 4` from the last data row. -/
theorem c8_witness :
    extractLastFrame
      [('#' :: ' ' :: 'c' :: []), ('@' :: ' ' :: 'm' :: []),
       ("0.0 1.0 2.0".toList), ("1.0 3.0 4.0".toList), ("junk".toList)] =
      .ok ((3 : ℚ) + 4) :=
  (c8_extract_last_row _).2 1 3 4 (by decide)

/-- Claim C7: when either required term name is absent from the listed
mapping, the composed scoring step fails with the missing-term error
naming exactly the absent names, independently of the extraction engine
(it is never invoked and no score is returned); when both are present it
proceeds to the extraction with their two indices. -/
theorem c7_missing_terms_config_error (mapping : List Char → Option ℕ)
    (t1 t2 : List Char) (engineOut : ℕ → ℕ → List (List Char)) :
    ((mapping t1 = none ∨ mapping t2 = none) →
      extract_energy_sum mapping t1 t2 engineOut
          = .error (.configMissing (termMissing mapping t1 t2)) ∧
        (∀ t, t ∈ termMissing mapping t1 t2 ↔ (t = t1 ∨ t = t2) ∧ mapping t = none) ∧
        (∀ engineOut2, extract_energy_sum mapping t1 t2 engineOut
          = extract_energy_sum mapping t1 t2 engineOut2)) ∧
    (∀ i1 i2, mapping t1 = some i1 → mapping t2 = some i2 →
      extract_energy_sum mapping t1 t2 engineOut = extractLastFrame (engineOut i1 i2)) := by
  constructor
  · intro hmiss
    have herr : selectTerms mapping t1 t2
        = .error (.configMissing (termMissing mapping t1 t2)) := by
      unfold selectTerms
      rcases hmiss with h | h
      · rw [h]
      · rw [h]
        cases hm1 : mapping t1 <;> rfl
    refine ⟨?_, ?_, ?_⟩
    · unfold extract_energy_sum
      rw [herr]
    · intro t
      unfold termMissing
      rw [List.mem_filter]
      simp [Option.isNone_iff_eq_none, and_comm]
    · intro engineOut2
      unfold extract_energy_sum
      rw [herr]
  · intro i1 i2 h1 h2
    unfold extract_energy_sum selectTerms
    rw [h1, h2]

/-- Witness for C7: a mapping listing only the Coulomb term makes the
composed scoring step fail naming exactly the Lennard-Jones term. -/
theorem c7_witness :
    extract_energy_sum
      (fun t => if t = ("Coul-SR:Protein-Ligand".toList) then some 3 else none)
      ("Coul-SR:Protein-Ligand".toList) ("LJ-SR:Protein-Ligand".toList)
      (fun _ _ => []) =
      .error (.configMissing [("LJ-SR:Protein-Ligand".toList)]) := by
  have h := (c7_missing_terms_config_error
      (fun t => if t = ("Coul-SR:Protein-Ligand".toList) then some 3 else none)
      ("Coul-SR:Protein-Ligand".toList) ("LJ-SR:Protein-Ligand".toList)
      (fun _ _ => [])).1 (Or.inr (by decide))
  rw [h.1]
  rw [show termMissing
      (fun t => if t = ("Coul-SR:Protein-Ligand".toList) then some 3 else none)
      ("Coul-SR:Protein-Ligand".toList) ("LJ-SR:Protein-Ligand".toList)
      = [("LJ-SR:Protein-Ligand".toList)] from by decide]

/-! ### Group-index dict lemmas -/

theorem dictLookup_append (k : List Char) (d d' : List (List Char × List ℤ)) :
    dictLookup k (d ++ d') = (match dictLookup k d with
      | some v => some v
      | none => dictLookup k d') := by
  induction d with
  | nil => simp [dictLookup]
  | cons p tl ih =>
    obtain ⟨k', v'⟩ := p
    rw [List.cons_append]
    unfold dictLookup
    by_cases hk : k' = k
    · rw [if_pos hk, if_pos hk]
    · rw [if_neg hk, if_neg hk, ih]
      cases dictLookup k tl
      · show dictLookup k d' = _
        rw [dictLookup.eq_def]
      · rfl

theorem dictLookup_map_set_self (k : List Char) (v : List ℤ)
    (d : List (List Char × List ℤ)) :
    dictLookup k (d.map (fun p => if p.1 = k then (k, v) else p)) =
      (match dictLookup k d with
        | some _ => some v
        | none => none) := by
  induction d with
  | nil => simp [dictLookup]
  | cons p tl ih =>
    obtain ⟨k', v'⟩ := p
    by_cases hk : k' = k
    · simp only [List.map_cons, if_pos hk]
      unfold dictLookup
      rw [if_pos rfl, if_pos hk]
    · simp only [List.map_cons, if_neg hk]
      unfold dictLookup
      rw [if_neg hk, if_neg hk, ih]

theorem dictLookup_map_set_ne (k k2 : List Char) (v : List ℤ)
    (d : List (List Char × List ℤ)) (hne : k2 ≠ k) :
    dictLookup k2 (d.map (fun p => if p.1 = k then (k, v) else p)) = dictLookup k2 d := by
  induction d with
  | nil => simp [dictLookup]
  | cons p tl ih =>
    obtain ⟨k', v'⟩ := p
    by_cases hk : k' = k
    · simp only [List.map_cons, if_pos hk]
      unfold dictLookup
      rw [if_neg (fun h => hne h.symm), if_neg (fun h : k' = k2 => hne (h ▸ hk)), ih]
    · simp only [List.map_cons, if_neg hk]
      unfold dictLookup
      by_cases hk2 : k' = k2
      · rw [if_pos hk2, if_pos hk2]
      · rw [if_neg hk2, if_neg hk2, ih]

theorem dictAny_iff_isSome (k : List Char) (d : List (List Char × List ℤ)) :
    (d.any (fun p => p.1 = k)) = (dictLookup k d).isSome := by
  induction d with
  | nil => simp [dictLookup]
  | cons p tl ih =>
    obtain ⟨k', v'⟩ := p
    unfold dictLookup
    by_cases hk : k' = k
    · simp [hk]
    · simp only [List.any_cons, if_neg hk, decide_eq_true_eq]
      rw [← ih]
      simp [hk]

theorem dictLookup_dictSet_self (d : List (List Char × List ℤ)) (k : List Char)
    (v : List ℤ) : dictLookup k (dictSet d k v) = some v := by
  unfold dictSet
  by_cases hany : (d.any (fun p => p.1 = k)) = true
  · rw [if_pos hany, dictLookup_map_set_self]
    rw [dictAny_iff_isSome] at hany
    cases h : dictLookup k d with
    | none => rw [h] at hany; simp at hany
    | some w => rfl
  · rw [if_neg hany, dictLookup_append]
    rw [dictAny_iff_isSome] at hany
    cases h : dictLookup k d with
    | none => simp [dictLookup]
    | some w => rw [h] at hany; simp at hany

theorem dictLookup_dictSet_ne (d : List (List Char × List ℤ)) (k k2 : List Char)
    (v : List ℤ) (hne : k2 ≠ k) :
    dictLookup k2 (dictSet d k v) = dictLookup k2 d := by
  unfold dictSet
  by_cases hany : (d.any (fun p => p.1 = k)) = true
  · rw [if_pos hany, dictLookup_map_set_ne _ _ _ _ hne]
  · rw [if_neg hany, dictLookup_append]
    cases h : dictLookup k2 d with
    | none =>
      unfold dictLookup
      rw [if_neg (fun h : k = k2 => hne h.symm)]
      rfl
    | some w => rfl

theorem dictLookup_dictAppend_self (d : List (List Char × List ℤ)) (k : List Char)
    (i : ℤ) :
    dictLookup k (dictAppend d k i) = (dictLookup k d).map (fun v => v ++ [i]) := by
  induction d with
  | nil => simp [dictAppend, dictLookup]
  | cons p tl ih =>
    obtain ⟨k', v'⟩ := p
    unfold dictAppend
    by_cases hk : k' = k
    · simp only [List.map_cons, if_pos hk]
      unfold dictLookup
      rw [if_pos hk, if_pos hk]
      rfl
    · simp only [List.map_cons, if_neg hk]
      unfold dictLookup
      rw [if_neg hk, if_neg hk]
      exact ih

theorem dictLookup_dictAppend_ne (d : List (List Char × List ℤ)) (k k2 : List Char)
    (i : ℤ) (hne : k2 ≠ k) :
    dictLookup k2 (dictAppend d k i) = dictLookup k2 d := by
  induction d with
  | nil => simp [dictAppend, dictLookup]
  | cons p tl ih =>
    obtain ⟨k', v'⟩ := p
    unfold dictAppend
    by_cases hk : k' = k
    · simp only [List.map_cons, if_pos hk]
      unfold dictLookup
      rw [if_neg (fun h : k' = k2 => hne (h ▸ hk)), if_neg (fun h : k' = k2 => hne (h ▸ hk))]
      exact ih
    · simp only [List.map_cons, if_neg hk]
      unfold dictLookup
      by_cases hk2 : k' = k2
      · rw [if_pos hk2, if_pos hk2]
      · rw [if_neg hk2, if_neg hk2]
        exact ih

/-! ### Group-index parsing lemmas and claim C10 -/

/-- Whether a line of the index file is a group header. -/
def isHeaderLine (ln : List Char) : Bool :=
  isNdxHeader (pyStrip ln)

/-- The (stripped) group name of a header line. -/
def headerNameOf (ln : List Char) : List Char :=
  pyStrip (ndxHeaderName (pyStrip ln))

/-- The integer tokens contributed by one non-header line. -/
def ndxLineInts (ln : List Char) : List ℤ :=
  (pySplit (pyStrip ln)).filterMap parseInt?

/-- All integer tokens of the lines up to (excluding) the next header. -/
def ndxIndicesUntilHeader (rest : List (List Char)) : List ℤ :=
  ((rest.takeWhile (fun l => !isHeaderLine l)).map ndxLineInts).flatten

theorem ndxIndicesUntilHeader_cons (ln : List Char) (tl : List (List Char)) :
    ndxIndicesUntilHeader (ln :: tl) =
      if isHeaderLine ln then [] else ndxLineInts ln ++ ndxIndicesUntilHeader tl := by
  unfold ndxIndicesUntilHeader
  by_cases h : isHeaderLine ln
  · simp [List.takeWhile_cons, h]
  · simp [List.takeWhile_cons, h]

theorem ndxTok_lookup_self (toks : List (List Char)) (cur : List Char) :
    ∀ g, dictLookup cur (toks.foldl
        (fun g tok => match parseInt? tok with
          | some i => dictAppend g cur i
          | none => g) g) =
      (dictLookup cur g).map (fun v => v ++ toks.filterMap parseInt?) := by
  induction toks with
  | nil =>
    intro g
    simp
  | cons tok tl ih =>
    intro g
    rw [List.foldl_cons, List.filterMap_cons]
    cases htok : parseInt? tok with
    | none =>
      simp only
      exact ih g
    | some i =>
      simp only
      rw [ih (dictAppend g cur i), dictLookup_dictAppend_self]
      cases dictLookup cur g <;> simp

theorem ndxTok_lookup_ne (toks : List (List Char)) (cur k : List Char)
    (hne : k ≠ cur) :
    ∀ g, dictLookup k (toks.foldl
        (fun g tok => match parseInt? tok with
          | some i => dictAppend g cur i
          | none => g) g) = dictLookup k g := by
  induction toks with
  | nil => intro g; rfl
  | cons tok tl ih =>
    intro g
    rw [List.foldl_cons]
    cases htok : parseInt? tok with
    | none => simp only; exact ih g
    | some i =>
      simp only
      rw [ih (dictAppend g cur i), dictLookup_dictAppend_ne _ _ _ _ hne]

theorem ndx_run_other (name : List Char) :
    ∀ rest : List (List Char),
      (∀ ln ∈ rest, isHeaderLine ln = true → headerNameOf ln ≠ name) →
      ∀ g (c : Option (List Char)), (∀ nm, c = some nm → nm ≠ name) →
      dictLookup name (rest.foldl ndxStep (g, c)).1 = dictLookup name g := by
  intro rest
  induction rest with
  | nil =>
    intro _ g c _
    rfl
  | cons ln tl ih =>
    intro hrest g c hc
    rw [List.foldl_cons]
    have htl := fun l hl => hrest l (List.mem_cons_of_mem ln hl)
    by_cases hs : pyStrip ln = []
    · rw [show ndxStep (g, c) ln = (g, c) from by unfold ndxStep; rw [if_pos hs]]
      exact ih htl g c hc
    · by_cases hh : isNdxHeader (pyStrip ln)
      · have hname : headerNameOf ln ≠ name :=
          hrest ln (List.mem_cons_self ln tl) (by unfold isHeaderLine; exact hh)
        rw [show ndxStep (g, c) ln
            = (dictSet g (headerNameOf ln) [], some (headerNameOf ln)) from by
          unfold ndxStep headerNameOf
          rw [if_neg hs, if_pos hh]]
        rw [ih htl _ _ (fun nm hnm => by
          injection hnm with h
          exact h ▸ hname)]
        exact dictLookup_dictSet_ne _ _ _ _ (Ne.symm hname)
      · cases hcv : c with
        | none =>
          rw [show ndxStep (g, none) ln = (g, none) from by
            unfold ndxStep
            rw [if_neg hs, if_neg hh]]
          exact ih htl g none (by simp)
        | some cur =>
          have hcur : cur ≠ name := hc cur hcv
          rw [show ndxStep (g, some cur) ln
              = ((pySplit (pyStrip ln)).foldl
                  (fun g tok => match parseInt? tok with
                    | some i => dictAppend g cur i
                    | none => g) g, some cur) from by
            unfold ndxStep
            rw [if_neg hs, if_neg hh]]
          rw [ih htl _ _ (fun nm hnm => by
            injection hnm with h
            exact h ▸ hcur)]
          exact ndxTok_lookup_ne _ _ _ (fun h => hcur h.symm) g

theorem ndx_run_current (name : List Char) :
    ∀ rest : List (List Char),
      (∀ ln ∈ rest, isHeaderLine ln = true → headerNameOf ln ≠ name) →
      ∀ g acc, dictLookup name g = some acc →
      dictLookup name (rest.foldl ndxStep (g, some name)).1
        = some (acc ++ ndxIndicesUntilHeader rest) := by
  intro rest
  induction rest with
  | nil =>
    intro _ g acc hg
    simpa [ndxIndicesUntilHeader] using hg
  | cons ln tl ih =>
    intro hrest g acc hg
    rw [List.foldl_cons, ndxIndicesUntilHeader_cons]
    have htl := fun l hl => hrest l (List.mem_cons_of_mem ln hl)
    by_cases hs : pyStrip ln = []
    · rw [show ndxStep (g, some name) ln = (g, some name) from by
        unfold ndxStep; rw [if_pos hs]]
      have hnothdr : isHeaderLine ln = false := by
        unfold isHeaderLine isNdxHeader
        rw [hs]
        simp
      rw [if_neg (by simp [hnothdr])]
      have hints : ndxLineInts ln = [] := by
        unfold ndxLineInts
        rw [hs]
        rfl
      rw [hints, List.nil_append]
      exact ih htl g acc hg
    · by_cases hh : isNdxHeader (pyStrip ln)
      · have hishdr : isHeaderLine ln = true := by unfold isHeaderLine; exact hh
        have hname : headerNameOf ln ≠ name := hrest ln (List.mem_cons_self ln tl) hishdr
        rw [if_pos hishdr, List.append_nil]
        rw [show ndxStep (g, some name) ln
            = (dictSet g (headerNameOf ln) [], some (headerNameOf ln)) from by
          unfold ndxStep headerNameOf
          rw [if_neg hs, if_pos hh]]
        rw [ndx_run_other name tl htl _ _ (fun nm hnm => by
          injection hnm with h
          exact h ▸ hname)]
        rw [dictLookup_dictSet_ne _ _ _ _ (Ne.symm hname)]
        exact hg
      · have hnothdr : isHeaderLine ln = false := by
          unfold isHeaderLine
          simpa using hh
        rw [if_neg (by simp [hnothdr])]
        rw [show ndxStep (g, some name) ln
            = ((pySplit (pyStrip ln)).foldl
                (fun g tok => match parseInt? tok with
                  | some i => dictAppend g name i
                  | none => g) g, some name) from by
          unfold ndxStep
          rw [if_neg hs, if_neg hh]]
        have hg' : dictLookup name ((pySplit (pyStrip ln)).foldl
            (fun g tok => match parseInt? tok with
              | some i => dictAppend g name i
              | none => g) g) = some (acc ++ ndxLineInts ln) := by
          rw [ndxTok_lookup_self, hg]
          rfl
        rw [ih htl _ _ hg', List.append_assoc]

/-- Claim C10: when a group name recurs as a header, `parse_ndx_groups`
succeeds (it is total) and the entry for that name holds exactly the
integer tokens of the lines following the last occurrence of the header,
up to the next header or end of input; everything collected under earlier
occurrences (anywhere in `pre`) is discarded. -/
theorem c10_duplicate_header_reset (pre rest : List (List Char)) (hl name : List Char)
    (hhdr : isHeaderLine hl = true) (hname : headerNameOf hl = name)
    (hrest : ∀ ln ∈ rest, isHeaderLine ln = true → headerNameOf ln ≠ name) :
    dictLookup name (parse_ndx_groups (pre ++ hl :: rest)) =
      some (ndxIndicesUntilHeader rest) := by
  unfold parse_ndx_groups
  rw [List.foldl_append, List.foldl_cons]
  have hs : pyStrip hl ≠ [] := by
    intro h
    unfold isHeaderLine isNdxHeader at hhdr
    rw [h] at hhdr
    simp at hhdr
  have hh : isNdxHeader (pyStrip hl) = true := hhdr
  rw [show ndxStep (pre.foldl ndxStep ([], none)) hl
      = (dictSet (pre.foldl ndxStep ([], none)).1 name [], some name) from by
    unfold ndxStep headerNameOf at *
    rw [if_neg hs, if_pos hh, hname]]
  rw [ndx_run_current name rest hrest _ [] (dictLookup_dictSet_self _ _ _)]
  rfl

/-- Witness for C10: the `Ligand` group appears twice; the parsed entry is
the tokens after the second header only. -/
theorem c10_witness :
    dictLookup ("Ligand".toList)
      (parse_ndx_groups
        ["[ Ligand ]".toList, "1 2 3".toList, "[ Protein ]".toList, "4 5".toList,
         "[ Ligand ]".toList, "7 8".toList]) = some [7, 8] := by
  have h := c10_duplicate_header_reset
    ["[ Ligand ]".toList, "1 2 3".toList, "[ Protein ]".toList, "4 5".toList]
    ["7 8".toList] ("[ Ligand ]".toList) ("Ligand".toList)
    (by decide) (by decide) (by decide)
  exact h.trans (by decide)

/-! ### Rigid-transform lemmas and claims C4, C5, C6 -/

theorem foldl_set_length (f : AtomRecord → AtomRecord) :
    ∀ (l : List ℕ) (ats : List AtomRecord),
      (l.foldl (fun a i => a.set i (f (a.getD i dfltAtom))) ats).length = ats.length := by
  intro l
  induction l with
  | nil => intro ats; rfl
  | cons i tl ih =>
    intro ats
    rw [List.foldl_cons, ih]
    simp

theorem foldl_set_getD_not_mem (f : AtomRecord → AtomRecord) :
    ∀ (l : List ℕ) (ats : List AtomRecord) (j : ℕ), j ∉ l →
      (l.foldl (fun a i => a.set i (f (a.getD i dfltAtom))) ats).getD j dfltAtom =
        ats.getD j dfltAtom := by
  intro l
  induction l with
  | nil => intro ats j _; rfl
  | cons i tl ih =>
    intro ats j hj
    rw [List.foldl_cons, ih _ _ (fun h => hj (List.mem_cons_of_mem i h))]
    have hne : i ≠ j := fun h => hj (h ▸ List.mem_cons_self i tl)
    simp [List.getD_eq_getElem?_getD, List.getElem?_set_ne hne]

theorem foldl_set_getD_mem (f : AtomRecord → AtomRecord) :
    ∀ (l : List ℕ) (ats : List AtomRecord), l.Nodup → (∀ i ∈ l, i < ats.length) →
      ∀ j ∈ l,
      (l.foldl (fun a i => a.set i (f (a.getD i dfltAtom))) ats).getD j dfltAtom =
        f (ats.getD j dfltAtom) := by
  intro l
  induction l with
  | nil => intro ats _ _ j hj; exact absurd hj (List.not_mem_nil j)
  | cons i tl ih =>
    intro ats hnd hin j hj
    rw [List.foldl_cons]
    rcases List.mem_cons.mp hj with rfl | hj'
    · have hnotl : j ∉ tl := (List.nodup_cons.mp hnd).1
      rw [foldl_set_getD_not_mem f tl _ j hnotl]
      have hlt : j < ats.length := hin j (List.mem_cons_self j tl)
      simp [List.getD_eq_getElem?_getD, List.getElem?_set_self hlt,
        List.getElem?_eq_getElem hlt]
    · have hne : i ≠ j := by
        rintro rfl
        exact (List.nodup_cons.mp hnd).1 hj'
      have h1 : (ats.set i (f (ats.getD i dfltAtom))).getD j dfltAtom
          = ats.getD j dfltAtom := by
        simp [List.getD_eq_getElem?_getD, List.getElem?_set_ne hne]
      rw [ih _ (List.nodup_cons.mp hnd).2
        (fun a ha => by
          rw [List.length_set]
          exact hin a (List.mem_cons_of_mem i ha)) j hj', h1]

theorem foldl_set_meta (f : AtomRecord → AtomRecord)
    (hf : ∀ a, (f a).resid = a.resid ∧ (f a).resname = a.resname ∧
      (f a).atomname = a.atomname ∧ (f a).atomnr = a.atomnr) :
    ∀ (l : List ℕ) (ats : List AtomRecord) (j : ℕ),
      (((l.foldl (fun a i => a.set i (f (a.getD i dfltAtom))) ats).getD j dfltAtom).resid
          = (ats.getD j dfltAtom).resid) ∧
      (((l.foldl (fun a i => a.set i (f (a.getD i dfltAtom))) ats).getD j dfltAtom).resname
          = (ats.getD j dfltAtom).resname) ∧
      (((l.foldl (fun a i => a.set i (f (a.getD i dfltAtom))) ats).getD j dfltAtom).atomname
          = (ats.getD j dfltAtom).atomname) ∧
      (((l.foldl (fun a i => a.set i (f (a.getD i dfltAtom))) ats).getD j dfltAtom).atomnr
          = (ats.getD j dfltAtom).atomnr) := by
  intro l
  induction l with
  | nil => intro ats j; exact ⟨rfl, rfl, rfl, rfl⟩
  | cons i tl ih =>
    intro ats j
    rw [List.foldl_cons]
    have hstep : ((ats.set i (f (ats.getD i dfltAtom))).getD j dfltAtom).resid
          = (ats.getD j dfltAtom).resid ∧
        ((ats.set i (f (ats.getD i dfltAtom))).getD j dfltAtom).resname
          = (ats.getD j dfltAtom).resname ∧
        ((ats.set i (f (ats.getD i dfltAtom))).getD j dfltAtom).atomname
          = (ats.getD j dfltAtom).atomname ∧
        ((ats.set i (f (ats.getD i dfltAtom))).getD j dfltAtom).atomnr
          = (ats.getD j dfltAtom).atomnr := by
      by_cases hij : i = j
      · subst hij
        by_cases hlt : i < ats.length
        · simp only [List.getD_eq_getElem?_getD, List.getElem?_set_self hlt,
            List.getElem?_eq_getElem hlt, Option.getD_some]
          exact hf _
        · rw [List.set_eq_of_length_le (by omega)]
          exact ⟨rfl, rfl, rfl, rfl⟩
      · simp [List.getD_eq_getElem?_getD, List.getElem?_set_ne hij]
    obtain ⟨ha, hb, hc, hd⟩ := ih (ats.set i (f (ats.getD i dfltAtom))) j
    exact ⟨ha.trans hstep.1, hb.trans hstep.2.1, hc.trans hstep.2.2.1,
      hd.trans hstep.2.2.2⟩

theorem sum_map_affine (l : List ℕ) (fx fy fz : ℕ → ℚ) (a b c A B C k : ℚ) :
    (l.map (fun i => a * (fx i - A) + b * (fy i - B) + c * (fz i - C) + k)).sum
      = a * ((l.map fx).sum - l.length * A) + b * ((l.map fy).sum - l.length * B)
        + c * ((l.map fz).sum - l.length * C) + l.length * k := by
  induction l with
  | nil => simp
  | cons hd tl ih =>
    rw [List.map_cons, List.sum_cons, ih]
    simp only [List.map_cons, List.sum_cons, List.length_cons]
    push_cast
    ring

/-- Claim C4: for a non-empty set of distinct in-range 1-based indices,
the centroid of the subset after `apply_rigid_transform` is the centroid
before plus the drawn translation, exactly over the rationals and for an
arbitrary rotation matrix. -/
theorem c4_centroid_translation (s : GroStructure) (idxs : List ℕ) (t : ℚ × ℚ × ℚ)
    (R : Mat3) (hne : idxs ≠ []) (hnd : idxs.Nodup)
    (hin : ∀ i ∈ idxs, 1 ≤ i ∧ i ≤ s.atoms.length) :
    subsetCentroid (apply_rigid_transform s idxs t R) idxs =
      ((subsetCentroid s idxs).1 + t.1, (subsetCentroid s idxs).2.1 + t.2.1,
       (subsetCentroid s idxs).2.2 + t.2.2) := by
  have hnd0 : (idxs.map (fun i => i - 1)).Nodup := by
    refine hnd.map_on ?_
    intro a ha b hb hab
    have ha1 := (hin a ha).1
    have hb1 := (hin b hb).1
    omega
  have hin0 : ∀ i ∈ idxs.map (fun i => i - 1), i < s.atoms.length := by
    intro i hi
    rcases List.mem_map.mp hi with ⟨a, ha, rfl⟩
    have := hin a ha
    omega
  set c := subsetCentroid s idxs with hc
  have hatoms : (apply_rigid_transform s idxs t R).atoms =
      (idxs.map (fun i => i - 1)).foldl
        (fun ats i => ats.set i (transformAtom R c t (ats.getD i dfltAtom))) s.atoms := rfl
  have hsel : ∀ i ∈ idxs,
      (apply_rigid_transform s idxs t R).atoms.getD (i - 1) dfltAtom
        = transformAtom R c t (s.atoms.getD (i - 1) dfltAtom) := by
    intro i hi
    rw [hatoms]
    exact foldl_set_getD_mem _ _ _ hnd0 hin0 (i - 1) (List.mem_map.mpr ⟨i, hi, rfl⟩)
  have hmap : idxs.map (fun i => (apply_rigid_transform s idxs t R).atoms.getD (i - 1) dfltAtom)
      = idxs.map (fun i => transformAtom R c t (s.atoms.getD (i - 1) dfltAtom)) :=
    List.map_congr_left hsel
  have hlenne : (idxs.length : ℚ) ≠ 0 := by
    have : idxs.length ≠ 0 := by simpa [List.length_eq_zero] using hne
    exact_mod_cast this
  have hcx : c.1 = (idxs.map (fun i => (s.atoms.getD (i - 1) dfltAtom).x)).sum
      / (idxs.length : ℚ) := by
    rw [hc]
    unfold subsetCentroid
    simp only [List.map_map, List.length_map]
    rfl
  have hcy : c.2.1 = (idxs.map (fun i => (s.atoms.getD (i - 1) dfltAtom).y)).sum
      / (idxs.length : ℚ) := by
    rw [hc]
    unfold subsetCentroid
    simp only [List.map_map, List.length_map]
    rfl
  have hcz : c.2.2 = (idxs.map (fun i => (s.atoms.getD (i - 1) dfltAtom).z)).sum
      / (idxs.length : ℚ) := by
    rw [hc]
    unfold subsetCentroid
    simp only [List.map_map, List.length_map]
    rfl
  show subsetCentroid _ idxs = _
  unfold subsetCentroid
  rw [hmap]
  simp only [List.map_map, List.length_map, Prod.mk.injEq]
  have hfx : (idxs.map ((fun a => AtomRecord.x a) ∘
        (fun i => transformAtom R c t (s.atoms.getD (i - 1) dfltAtom))))
      = idxs.map (fun i => R.m00 * ((s.atoms.getD (i - 1) dfltAtom).x - c.1)
          + R.m01 * ((s.atoms.getD (i - 1) dfltAtom).y - c.2.1)
          + R.m02 * ((s.atoms.getD (i - 1) dfltAtom).z - c.2.2) + (c.1 + t.1)) := by
    apply List.map_congr_left
    intro i _
    simp only [Function.comp, transformAtom]
    ring
  have hfy : (idxs.map ((fun a => AtomRecord.y a) ∘
        (fun i => transformAtom R c t (s.atoms.getD (i - 1) dfltAtom))))
      = idxs.map (fun i => R.m10 * ((s.atoms.getD (i - 1) dfltAtom).x - c.1)
          + R.m11 * ((s.atoms.getD (i - 1) dfltAtom).y - c.2.1)
          + R.m12 * ((s.atoms.getD (i - 1) dfltAtom).z - c.2.2) + (c.2.1 + t.2.1)) := by
    apply List.map_congr_left
    intro i _
    simp only [Function.comp, transformAtom]
    ring
  have hfz : (idxs.map ((fun a => AtomRecord.z a) ∘
        (fun i => transformAtom R c t (s.atoms.getD (i - 1) dfltAtom))))
      = idxs.map (fun i => R.m20 * ((s.atoms.getD (i - 1) dfltAtom).x - c.1)
          + R.m21 * ((s.atoms.getD (i - 1) dfltAtom).y - c.2.1)
          + R.m22 * ((s.atoms.getD (i - 1) dfltAtom).z - c.2.2) + (c.2.2 + t.2.2)) := by
    apply List.map_congr_left
    intro i _
    simp only [Function.comp, transformAtom]
    ring
  refine ⟨?_, ?_, ?_⟩
  · rw [hfx, sum_map_affine, hcx, hcy, hcz]
    field_simp
  · rw [hfy, sum_map_affine, hcx, hcy, hcz]
    field_simp
  · rw [hfz, sum_map_affine, hcx, hcy, hcz]
    field_simp

/-- Witness for C4 at a concrete two-atom structure, subset `[2]`, an
arbitrary non-identity rotation matrix and translation `(1, 1, 1)`. -/
theorem c4_witness :
    subsetCentroid
      (apply_rigid_transform
        ⟨[], [⟨1, [], [], 1, 0, 0, 0⟩, ⟨2, [], [], 2, 1, 2, 3⟩], (5, 5, 5)⟩
        [2] (1, 1, 1) ⟨0, 1, 0, 0, 0, 1, 1, 0, 0⟩) [2] = (2, 3, 4) := by
  have h := c4_centroid_translation
    ⟨[], [⟨1, [], [], 1, 0, 0, 0⟩, ⟨2, [], [], 2, 1, 2, 3⟩], (5, 5, 5)⟩
    [2] (1, 1, 1) ⟨0, 1, 0, 0, 0, 1, 1, 0, 0⟩ (by decide) (by decide)
    (by intro i hi; simp at hi; subst hi; decide)
  rw [h]
  norm_num [subsetCentroid, dfltAtom]

/-- Claim C5: with `max_rotation_degrees <= 0` the drawn rotation matrix
is the identity whatever the axis/angle draw is (no sampling can affect
it), every subset atom moves by exactly the drawn translation, and every
atom outside the subset is unchanged. -/
theorem c5_zero_rotation_identity (s : GroStructure) (idxs : List ℕ) (t : ℚ × ℚ × ℚ)
    (max_deg : ℚ) (d : RotDraw) (hdeg : max_deg ≤ 0) (_hne : idxs ≠ [])
    (hnd : idxs.Nodup) (hin : ∀ i ∈ idxs, 1 ≤ i ∧ i ≤ s.atoms.length) :
    random_rotation_matrix max_deg d = idMat3 ∧
    (∀ i ∈ idxs,
      (apply_rigid_transform s idxs t (random_rotation_matrix max_deg d)).atoms.getD
          (i - 1) dfltAtom =
        (fun a : AtomRecord =>
          { a with x := a.x + t.1, y := a.y + t.2.1, z := a.z + t.2.2 })
          (s.atoms.getD (i - 1) dfltAtom)) ∧
    (∀ j : ℕ, j + 1 ∉ idxs →
      (apply_rigid_transform s idxs t (random_rotation_matrix max_deg d)).atoms.getD
          j dfltAtom = s.atoms.getD j dfltAtom) := by
  have hR : random_rotation_matrix max_deg d = idMat3 := by
    unfold random_rotation_matrix
    rw [if_pos hdeg]
  have hnd0 : (idxs.map (fun i => i - 1)).Nodup := by
    refine hnd.map_on ?_
    intro a ha b hb hab
    have ha1 := (hin a ha).1
    have hb1 := (hin b hb).1
    omega
  have hin0 : ∀ i ∈ idxs.map (fun i => i - 1), i < s.atoms.length := by
    intro i hi
    rcases List.mem_map.mp hi with ⟨a, ha, rfl⟩
    have := hin a ha
    omega
  have htrans : ∀ a : AtomRecord,
      transformAtom idMat3 (subsetCentroid s idxs) t a =
        { a with x := a.x + t.1, y := a.y + t.2.1, z := a.z + t.2.2 } := by
    intro a
    simp only [transformAtom, idMat3, AtomRecord.mk.injEq, eq_self_iff_true, true_and]
    refine ⟨by ring, by ring, by ring⟩
  refine ⟨hR, ?_, ?_⟩
  · intro i hi
    rw [hR]
    have hatoms : (apply_rigid_transform s idxs t idMat3).atoms =
        (idxs.map (fun i => i - 1)).foldl
          (fun ats i => ats.set i
            (transformAtom idMat3 (subsetCentroid s idxs) t (ats.getD i dfltAtom)))
          s.atoms := rfl
    rw [hatoms,
      foldl_set_getD_mem _ _ _ hnd0 hin0 (i - 1) (List.mem_map.mpr ⟨i, hi, rfl⟩),
      htrans]
  · intro j hj
    rw [hR]
    have hatoms : (apply_rigid_transform s idxs t idMat3).atoms =
        (idxs.map (fun i => i - 1)).foldl
          (fun ats i => ats.set i
            (transformAtom idMat3 (subsetCentroid s idxs) t (ats.getD i dfltAtom)))
          s.atoms := rfl
    rw [hatoms]
    refine foldl_set_getD_not_mem _ _ _ j ?_
    intro hmem
    rcases List.mem_map.mp hmem with ⟨a, ha, hval⟩
    have h1 := (hin a ha).1
    have : a = j + 1 := by omega
    exact hj (this ▸ ha)

/-- Witness for C5: zero maximum rotation on a concrete structure moves
the subset atom by the translation and leaves the other atom unchanged. -/
theorem c5_witness :
    (apply_rigid_transform
        ⟨[], [⟨1, [], [], 1, 0, 0, 0⟩, ⟨2, [], [], 2, 1, 2, 3⟩], (5, 5, 5)⟩
        [2] (1, 1, 1)
        (random_rotation_matrix 0 ⟨0, 1, 1, 0, 0⟩)).atoms.getD 1 dfltAtom =
      ⟨2, [], [], 2, 2, 3, 4⟩ ∧
    (apply_rigid_transform
        ⟨[], [⟨1, [], [], 1, 0, 0, 0⟩, ⟨2, [], [], 2, 1, 2, 3⟩], (5, 5, 5)⟩
        [2] (1, 1, 1)
        (random_rotation_matrix 0 ⟨0, 1, 1, 0, 0⟩)).atoms.getD 0 dfltAtom =
      ⟨1, [], [], 1, 0, 0, 0⟩ := by
  have h := c5_zero_rotation_identity
    ⟨[], [⟨1, [], [], 1, 0, 0, 0⟩, ⟨2, [], [], 2, 1, 2, 3⟩], (5, 5, 5)⟩
    [2] (1, 1, 1) 0 ⟨0, 1, 1, 0, 0⟩ le_rfl (by decide) (by decide)
    (by intro i hi; simp at hi; subst hi; decide)
  constructor
  · have h2 := h.2.1 2 (by decide)
    rw [show (2 : ℕ) - 1 = 1 from rfl] at h2
    rw [h2]
    norm_num [dfltAtom]
  · exact h.2.2 0 (by decide)

/-- Claim C6: `apply_rigid_transform` preserves the title, the box, the
atom count, and each atom's residue id, residue name, atom name and atom
number, and leaves every atom outside the subset entirely unchanged.  The
embedding is value-semantic, so the input structure itself is unchanged
by construction, as in the source, which builds a fresh atom list and
fresh atom records. -/
theorem c6_frame_preservation (s : GroStructure) (idxs : List ℕ) (t : ℚ × ℚ × ℚ)
    (R : Mat3) (_hne : idxs ≠ [])
    (hin : ∀ i ∈ idxs, 1 ≤ i ∧ i ≤ s.atoms.length) :
    (apply_rigid_transform s idxs t R).title = s.title ∧
    (apply_rigid_transform s idxs t R).box = s.box ∧
    (apply_rigid_transform s idxs t R).atoms.length = s.atoms.length ∧
    (∀ j : ℕ,
      ((apply_rigid_transform s idxs t R).atoms.getD j dfltAtom).resid
          = (s.atoms.getD j dfltAtom).resid ∧
      ((apply_rigid_transform s idxs t R).atoms.getD j dfltAtom).resname
          = (s.atoms.getD j dfltAtom).resname ∧
      ((apply_rigid_transform s idxs t R).atoms.getD j dfltAtom).atomname
          = (s.atoms.getD j dfltAtom).atomname ∧
      ((apply_rigid_transform s idxs t R).atoms.getD j dfltAtom).atomnr
          = (s.atoms.getD j dfltAtom).atomnr) ∧
    (∀ j : ℕ, j + 1 ∉ idxs →
      (apply_rigid_transform s idxs t R).atoms.getD j dfltAtom
        = s.atoms.getD j dfltAtom) := by
  have hatoms : (apply_rigid_transform s idxs t R).atoms =
      (idxs.map (fun i => i - 1)).foldl
        (fun ats i => ats.set i
          (transformAtom R (subsetCentroid s idxs) t (ats.getD i dfltAtom)))
        s.atoms := rfl
  refine ⟨rfl, rfl, ?_, ?_, ?_⟩
  · rw [hatoms]
    exact foldl_set_length _ _ _
  · intro j
    rw [hatoms]
    exact foldl_set_meta (transformAtom R (subsetCentroid s idxs) t)
      (fun a => ⟨rfl, rfl, rfl, rfl⟩) _ _ j
  · intro j hj
    rw [hatoms]
    refine foldl_set_getD_not_mem _ _ _ j ?_
    intro hmem
    rcases List.mem_map.mp hmem with ⟨a, ha, hval⟩
    have h1 := (hin a ha).1
    have : a = j + 1 := by omega
    exact hj (this ▸ ha)

/-- Witness for C6 at a concrete structure and non-trivial rotation. -/
theorem c6_witness :
    (apply_rigid_transform
        ⟨[], [⟨1, [], [], 1, 0, 0, 0⟩, ⟨2, [], [], 2, 1, 2, 3⟩], (5, 5, 5)⟩
        [2] (1, 1, 1) ⟨0, 1, 0, 0, 0, 1, 1, 0, 0⟩).atoms.length = 2 ∧
    (apply_rigid_transform
        ⟨[], [⟨1, [], [], 1, 0, 0, 0⟩, ⟨2, [], [], 2, 1, 2, 3⟩], (5, 5, 5)⟩
        [2] (1, 1, 1) ⟨0, 1, 0, 0, 0, 1, 1, 0, 0⟩).atoms.getD 0 dfltAtom
      = ⟨1, [], [], 1, 0, 0, 0⟩ ∧
    ((apply_rigid_transform
        ⟨[], [⟨1, [], [], 1, 0, 0, 0⟩, ⟨2, [], [], 2, 1, 2, 3⟩], (5, 5, 5)⟩
        [2] (1, 1, 1) ⟨0, 1, 0, 0, 0, 1, 1, 0, 0⟩).atoms.getD 1 dfltAtom).atomname
      = [] := by
  have h := c6_frame_preservation
    ⟨[], [⟨1, [], [], 1, 0, 0, 0⟩, ⟨2, [], [], 2, 1, 2, 3⟩], (5, 5, 5)⟩
    [2] (1, 1, 1) ⟨0, 1, 0, 0, 0, 1, 1, 0, 0⟩ (by decide)
    (by intro i hi; simp at hi; subst hi; decide)
  refine ⟨h.2.2.1.trans (by decide), h.2.2.2.2 0 (by decide), (h.2.2.2.1 1).2.2.1.trans (by decide)⟩

/-! ### Claim C9: whitespace-fallback atom-line parsing -/

instance {e a : Type} [DecidableEq e] [DecidableEq a] : DecidableEq (Except e a) := by
  intro u v
  cases u <;> cases v
  case error.error x y =>
    exact if h : x = y then isTrue (by rw [h]) else isFalse (by simp [h])
  case ok.ok x y =>
    exact if h : x = y then isTrue (by rw [h]) else isFalse (by simp [h])
  case error.ok x y => exact isFalse (by simp)
  case ok.error x y => exact isFalse (by simp)

theorem drop4_take3_of_ge7 (l : List (List Char)) (h : 7 ≤ l.length) :
    (l.drop 4).take 3 = [l.getD 4 [], l.getD 5 [], l.getD 6 []] := by
  rcases l with _ | ⟨a, _ | ⟨b, _ | ⟨c, _ | ⟨d, _ | ⟨e, _ | ⟨f, _ | ⟨g, tl⟩⟩⟩⟩⟩⟩⟩ <;>
    simp_all

theorem drop4_take3_of_eq6 (l : List (List Char)) (h : l.length = 6) :
    (l.drop 4).take 3 = [l.getD 4 [], l.getD 5 []] := by
  rcases l with _ | ⟨a, _ | ⟨b, _ | ⟨c, _ | ⟨d, _ | ⟨e, _ | ⟨f, _ | ⟨g, tl⟩⟩⟩⟩⟩⟩⟩ <;>
    simp_all

/-- Claim C9 (counterexample): two atom lines on which fixed-column
decoding fails and which have at least 6 whitespace tokens, yet the
parser raises the uncaught numeric `ValueError` instead of succeeding:
a 6-token line (the 3-way unpack of `parts[4:7]` gets only 2 values) and
a 7-token line whose residue-id token is not an integer. -/
theorem c9_counterexample :
    (fixedParse ("1 A B 2 0.1 0.2".toList) = none ∧
     (pySplit ("1 A B 2 0.1 0.2".toList)).length = 6 ∧
     parseAtomLine ("1 A B 2 0.1 0.2".toList)
       = .error (.fallbackNumeric ("1 A B 2 0.1 0.2".toList))) ∧
    (fixedParse ("a b c d 0.1 0.2 0.3".toList) = none ∧
     (pySplit ("a b c d 0.1 0.2 0.3".toList)).length = 7 ∧
     parseAtomLine ("a b c d 0.1 0.2 0.3".toList)
       = .error (.fallbackNumeric ("a b c d 0.1 0.2 0.3".toList))) := by
  refine ⟨⟨by decide, by decide, ?_⟩, ⟨by decide, by decide, ?_⟩⟩ <;> decide

/-- Claim C9 (amended): on an atom line where fixed-column decoding
fails, the whitespace fallback succeeds exactly when there are at least
7 tokens whose tokens 1 and 4 parse as integers and tokens 5-7 parse as
floats, yielding `(resid, resname, atomname, atomnr, x, y, z)`; a line
with fewer than 6 tokens fails with the explicit malformed-line
`FormatError`; a 6-token line, or one with a non-parsing numeric field,
fails with an uncaught numeric `ValueError`. -/
theorem c9_fallback_amended (ln : List Char) (hfix : fixedParse ln = none) :
    ((pySplit ln).length < 6 → parseAtomLine ln = .error (.malformedAtomLine ln)) ∧
    (∀ (resid atomnr : ℤ) (x y z : ℚ),
      7 ≤ (pySplit ln).length →
      parseInt? ((pySplit ln).getD 0 []) = some resid →
      parseInt? ((pySplit ln).getD 3 []) = some atomnr →
      parseFloat? ((pySplit ln).getD 4 []) = some x →
      parseFloat? ((pySplit ln).getD 5 []) = some y →
      parseFloat? ((pySplit ln).getD 6 []) = some z →
      parseAtomLine ln = .ok ⟨resid, (pySplit ln).getD 1 [], (pySplit ln).getD 2 [],
        atomnr, x, y, z⟩) ∧
    ((pySplit ln).length = 6 → parseAtomLine ln = .error (.fallbackNumeric ln)) ∧
    (7 ≤ (pySplit ln).length →
      (parseInt? ((pySplit ln).getD 0 []) = none ∨
       parseInt? ((pySplit ln).getD 3 []) = none ∨
       parseFloat? ((pySplit ln).getD 4 []) = none ∨
       parseFloat? ((pySplit ln).getD 5 []) = none ∨
       parseFloat? ((pySplit ln).getD 6 []) = none) →
      parseAtomLine ln = .error (.fallbackNumeric ln)) := by
  refine ⟨?_, ?_, ?_, ?_⟩
  · intro hlen
    unfold parseAtomLine
    rw [hfix]
    simp only [if_pos hlen]
  · intro resid atomnr x y z hlen h0 h3 h4 h5 h6
    unfold parseAtomLine
    rw [hfix]
    simp only [if_neg (by omega : ¬ (pySplit ln).length < 6)]
    rw [drop4_take3_of_ge7 _ hlen]
    simp only [h0, h3, h4, h5, h6]
  · intro hlen
    unfold parseAtomLine
    rw [hfix]
    simp only [if_neg (by omega : ¬ (pySplit ln).length < 6)]
    rw [drop4_take3_of_eq6 _ hlen]
    cases parseInt? ((pySplit ln).getD 0 []) <;>
      cases parseInt? ((pySplit ln).getD 3 []) <;> rfl
  · intro hlen hfail
    unfold parseAtomLine
    rw [hfix]
    simp only [if_neg (by omega : ¬ (pySplit ln).length < 6)]
    rw [drop4_take3_of_ge7 _ hlen]
    rcases hfail with h | h | h | h | h
    · rw [h]
    · rw [h]
      cases parseInt? ((pySplit ln).getD 0 []) <;> rfl
    · cases h0x : parseInt? ((pySplit ln).getD 0 []) <;>
        cases h3x : parseInt? ((pySplit ln).getD 3 []) <;>
        first
          | rfl
          | (simp only [h]
             try rfl)
    · cases h0x : parseInt? ((pySplit ln).getD 0 []) <;>
        cases h3x : parseInt? ((pySplit ln).getD 3 []) <;>
        first
          | rfl
          | (cases h4x : parseFloat? ((pySplit ln).getD 4 []) <;>
             first
               | rfl
               | (simp only [h, h4x]
                  try rfl))
    · cases h0x : parseInt? ((pySplit ln).getD 0 []) <;>
        cases h3x : parseInt? ((pySplit ln).getD 3 []) <;>
        first
          | rfl
          | (cases h4x : parseFloat? ((pySplit ln).getD 4 []) <;>
             cases h5x : parseFloat? ((pySplit ln).getD 5 []) <;>
             first
               | rfl
               | (simp only [h, h4x, h5x]
                  try rfl))

/-- Witness for C9 (amended): a 7-token numeric line parses through the
fallback with the expected fields. -/
theorem c9_witness :
    parseAtomLine ("1 SOL OW 2 0.5 0.25 0.125".toList)
      = .ok ⟨1, "SOL".toList, "OW".toList, 2, 1/2, 1/4, 1/8⟩ := by
  have h := (c9_fallback_amended ("1 SOL OW 2 0.5 0.25 0.125".toList) (by decide)).2.1
    1 2 (1/2) (1/4) (1/8) (by decide) (by decide) (by decide)
    (by decide) (by decide) (by decide)
  exact h.trans (by decide)

/-! ### Claim C3: structure-file round trip.  Digit and strip lemmas. -/

theorem dChar_props (d : ℕ) (h : d < 10) :
    (dChar d).isDigit = true ∧ (dChar d).isWhitespace = false ∧
    dChar d ≠ '-' ∧ dChar d ≠ '+' ∧ dChar d ≠ '.' ∧ dChar d ≠ '\n' := by
  interval_cases d <;> exact ⟨by decide, by decide, by decide, by decide, by decide, by decide⟩

theorem dChar_val (d : ℕ) (h : d < 10) : (dChar d).toNat - 48 = d := by
  interval_cases d <;> decide

theorem natToChars_ne_nil (n : ℕ) : natToChars n ≠ [] := by
  rw [natToChars_eq]
  by_cases h : n < 10
  · simp [h]
  · simp [h]

theorem natToChars_props (n : ℕ) : ∀ c ∈ natToChars n,
    c.isDigit = true ∧ c.isWhitespace = false ∧ c ≠ '-' ∧ c ≠ '+' ∧ c ≠ '.' ∧ c ≠ '\n' := by
  induction n using Nat.strong_induction_on with
  | _ n ih =>
    rw [natToChars_eq]
    by_cases h : n < 10
    · rw [if_pos h]
      intro c hc
      rw [List.mem_singleton] at hc
      exact hc ▸ dChar_props n h
    · rw [if_neg h]
      intro c hc
      rcases List.mem_append.mp hc with hc | hc
      · exact ih (n / 10) (Nat.div_lt_self (by omega) (by omega)) c hc
      · rw [List.mem_singleton] at hc
        exact hc ▸ dChar_props (n % 10) (Nat.mod_lt n (by omega))

theorem digitsVal_append_singleton (xs : List Char) (c : Char) :
    digitsVal (xs ++ [c]) = 10 * digitsVal xs + (c.toNat - 48) := by
  unfold digitsVal
  rw [List.foldl_append]
  rfl

theorem digitsVal_natToChars (n : ℕ) : digitsVal (natToChars n) = n := by
  induction n using Nat.strong_induction_on with
  | _ n ih =>
    rw [natToChars_eq]
    by_cases h : n < 10
    · rw [if_pos h]
      show 10 * 0 + ((dChar n).toNat - 48) = n
      rw [dChar_val n h]
      omega
    · rw [if_neg h, digitsVal_append_singleton,
        ih (n / 10) (Nat.div_lt_self (by omega) (by omega)),
        dChar_val (n % 10) (Nat.mod_lt n (by omega))]
      omega

theorem natToChars_length_le (k : ℕ) : ∀ n, 1 ≤ k → n < 10 ^ k →
    (natToChars n).length ≤ k := by
  induction k with
  | zero => intro n h; omega
  | succ k ihk =>
    intro n _ hn
    rw [natToChars_eq]
    by_cases h : n < 10
    · simp [h]
    · rw [if_neg h]
      rw [List.length_append, List.length_singleton]
      have hk1 : 1 ≤ k := by
        by_contra hk
        have : k = 0 := by omega
        subst this
        simp at hn
        omega
      have hdiv : n / 10 < 10 ^ k := by
        rw [Nat.div_lt_iff_lt_mul (by omega)]
        calc n < 10 ^ (k + 1) := hn
        _ = 10 ^ k * 10 := by ring
      have := ihk (n / 10) hk1 hdiv
      omega

theorem dropWhile_eq_self_of_none (p : Char → Bool) (l : List Char)
    (h : ∀ c ∈ l, p c = false) : l.dropWhile p = l := by
  cases l with
  | nil => rfl
  | cons c cs =>
    rw [List.dropWhile_cons, if_neg]
    rw [h c (List.mem_cons_self c cs)]
    simp

theorem takeWhile_all (p : Char → Bool) (l : List Char)
    (h : ∀ c ∈ l, p c = true) : l.takeWhile p = l := by
  induction l with
  | nil => rfl
  | cons c cs ih =>
    rw [List.takeWhile_cons, if_pos (h c (List.mem_cons_self c cs))]
    rw [ih (fun d hd => h d (List.mem_cons_of_mem c hd))]

theorem dropWhile_all (p : Char → Bool) (l : List Char)
    (h : ∀ c ∈ l, p c = true) : l.dropWhile p = [] := by
  induction l with
  | nil => rfl
  | cons c cs ih =>
    rw [List.dropWhile_cons, if_pos (h c (List.mem_cons_self c cs))]
    exact ih (fun d hd => h d (List.mem_cons_of_mem c hd))

theorem pyStrip_no_ws (l : List Char) (h : ∀ c ∈ l, c.isWhitespace = false) :
    pyStrip l = l := by
  unfold pyStrip
  rw [dropWhile_eq_self_of_none _ _ h,
    dropWhile_eq_self_of_none _ _ (fun c hc => h c (List.mem_reverse.mp hc)),
    List.reverse_reverse]

theorem dropWhile_ws_replicate (k : ℕ) (l : List Char) :
    (List.replicate k ' ' ++ l).dropWhile Char.isWhitespace
      = l.dropWhile Char.isWhitespace := by
  induction k with
  | zero => rfl
  | succ k ih =>
    rw [List.replicate_succ, List.cons_append, List.dropWhile_cons, if_pos (by decide)]
    exact ih

theorem pyStrip_replicate_space (k : ℕ) (l : List Char) :
    pyStrip (List.replicate k ' ' ++ l) = pyStrip l := by
  unfold pyStrip
  rw [dropWhile_ws_replicate]

theorem pyStrip_padLeft (w : ℕ) (l : List Char) :
    pyStrip (padLeft w l) = pyStrip l :=
  pyStrip_replicate_space _ l

theorem padLeft_length (w : ℕ) (l : List Char) :
    (padLeft w l).length = max w l.length := by
  simp [padLeft]
  omega

theorem parseDigits_natToChars (n : ℕ) : parseDigits? (natToChars n) = some n := by
  unfold parseDigits?
  rw [if_pos ⟨natToChars_ne_nil n, List.all_eq_true.mpr
    (fun c hc => (natToChars_props n c hc).1)⟩]
  rw [digitsVal_natToChars]

theorem parseInt?_of_strip (s : List Char) (i : ℤ) (h : pyStrip s = intToChars i) :
    parseInt? s = some i := by
  unfold parseInt?
  rw [h]
  unfold intToChars
  by_cases hi : i < 0
  · rw [if_pos hi]
    simp only [parseDigits_natToChars, Option.map_some]
    rw [if_pos trivial]
    show some (-(i.natAbs : ℤ)) = some i
    congr 1
    omega
  · rw [if_neg hi]
    obtain ⟨c, cs, hcons⟩ := List.exists_cons_of_ne_nil (natToChars_ne_nil i.natAbs)
    have hprops := natToChars_props i.natAbs c (hcons ▸ List.mem_cons_self c cs)
    rw [hcons]
    simp [hprops.2.2.1, hprops.2.2.2.1, ← hcons, parseDigits_natToChars]
    omega

theorem intToChars_no_ws (i : ℤ) : ∀ c ∈ intToChars i, c.isWhitespace = false := by
  intro c hc
  unfold intToChars at hc
  by_cases hi : i < 0
  · rw [if_pos hi] at hc
    rcases List.mem_cons.mp hc with rfl | hc
    · decide
    · exact (natToChars_props _ c hc).2.1
  · rw [if_neg hi] at hc
    exact (natToChars_props _ c hc).2.1

theorem parseInt?_fmtInt (i : ℤ) (w : ℕ) : parseInt? (fmtInt i w) = some i := by
  apply parseInt?_of_strip
  unfold fmtInt
  rw [pyStrip_padLeft]
  exact pyStrip_no_ws _ (intToChars_no_ws i)

theorem digitsVal_zero_replicate (k : ℕ) (l : List Char) :
    digitsVal (List.replicate k '0' ++ l) = digitsVal l := by
  induction k with
  | zero => rfl
  | succ k ih =>
    rw [List.replicate_succ, List.cons_append]
    show digitsVal (List.replicate k '0' ++ l) = digitsVal l
    exact ih

theorem digitsVal_zeroPad (k : ℕ) (l : List Char) :
    digitsVal (zeroPad k l) = digitsVal l :=
  digitsVal_zero_replicate _ l

theorem zeroPad_length (k : ℕ) (l : List Char) (h : l.length ≤ k) :
    (zeroPad k l).length = k := by
  simp [zeroPad]
  omega

theorem zeroPad_digits (k : ℕ) (l : List Char)
    (h : ∀ c ∈ l, c.isDigit = true) : ∀ c ∈ zeroPad k l, c.isDigit = true := by
  intro c hc
  unfold zeroPad at hc
  rcases List.mem_append.mp hc with hc | hc
  · rw [List.eq_of_mem_replicate hc]
    decide
  · exact h c hc

theorem parseUFloat_digits_dot (ip fp : List Char) (hip_ne : ip ≠ [])
    (hip : ∀ c ∈ ip, c.isDigit = true) (hfp : ∀ c ∈ fp, c.isDigit = true) :
    parseUFloat? (ip ++ '.' :: fp)
      = some ((digitsVal ip : ℚ) + (digitsVal fp : ℚ) / (10 : ℚ) ^ fp.length) := by
  have h1 : (ip ++ '.' :: fp).takeWhile Char.isDigit = ip := by
    rw [List.takeWhile_append_of_pos hip, List.takeWhile_cons, if_neg (by decide)]
    simp
  have h2 : (ip ++ '.' :: fp).dropWhile Char.isDigit = '.' :: fp := by
    rw [List.dropWhile_append_of_pos hip, List.dropWhile_cons, if_neg (by decide)]
  have h3 : fp.takeWhile Char.isDigit = fp := takeWhile_all _ _ hfp
  have h4 : fp.dropWhile Char.isDigit = [] := dropWhile_all _ _ hfp
  unfold parseUFloat?
  rw [h1, h2]
  simp [h3, h4, hip_ne]

theorem natCast_div_add_mod (a b : ℕ) (hb : b ≠ 0) :
    ((a / b : ℕ) : ℚ) + ((a % b : ℕ) : ℚ) / (b : ℚ) = (a : ℚ) / (b : ℚ) := by
  have hbq : (b : ℚ) ≠ 0 := by exact_mod_cast hb
  have h : (b : ℚ) * ((a / b : ℕ) : ℚ) + ((a % b : ℕ) : ℚ) = (a : ℚ) := by
    exact_mod_cast congrArg (fun n : ℕ => (n : ℚ)) (Nat.div_add_mod a b)
  field_simp
  linarith [h]

theorem fmtFixedCore_no_ws (q : ℚ) (prec : ℕ) :
    ∀ c ∈ fmtFixedCore q prec, c.isWhitespace = false := by
  intro c hc
  unfold fmtFixedCore at hc
  set m := round (q * (10 : ℚ) ^ prec) with hm
  have hdig : ∀ c ∈ natToChars (m.natAbs / 10 ^ prec) ++
      '.' :: zeroPad prec (natToChars (m.natAbs % 10 ^ prec)), c.isWhitespace = false := by
    intro d hd
    rcases List.mem_append.mp hd with hd | hd
    · exact (natToChars_props _ d hd).2.1
    · rcases List.mem_cons.mp hd with rfl | hd
      · decide
      · unfold zeroPad at hd
        rcases List.mem_append.mp hd with hd | hd
        · rw [List.eq_of_mem_replicate hd]
          decide
        · exact (natToChars_props _ d hd).2.1
  by_cases hneg : m < 0
  · rw [if_pos hneg] at hc
    rcases List.mem_cons.mp hc with rfl | hc
    · decide
    · exact hdig c hc
  · rw [if_neg hneg] at hc
    exact hdig c hc

theorem parseUFloat_fmt_core (m : ℤ) (prec : ℕ) (hprec : 1 ≤ prec) :
    parseUFloat? (natToChars (m.natAbs / 10 ^ prec) ++
        '.' :: zeroPad prec (natToChars (m.natAbs % 10 ^ prec)))
      = some ((m.natAbs : ℚ) / (10 : ℚ) ^ prec) := by
  have hlenfp : (zeroPad prec (natToChars (m.natAbs % 10 ^ prec))).length = prec :=
    zeroPad_length _ _ (natToChars_length_le prec _ hprec
      (Nat.mod_lt _ (Nat.pos_pow_of_pos prec (by omega))))
  rw [parseUFloat_digits_dot _ _ (natToChars_ne_nil _)
    (fun c hc => (natToChars_props _ c hc).1)
    (zeroPad_digits _ _ (fun c hc => (natToChars_props _ c hc).1))]
  rw [digitsVal_natToChars, digitsVal_zeroPad, digitsVal_natToChars, hlenfp]
  congr 1
  have key := natCast_div_add_mod m.natAbs (10 ^ prec)
    (by positivity : (10 : ℕ) ^ prec ≠ 0)
  push_cast at key ⊢
  exact key

theorem parseFloat?_of_strip (s : List Char) (q : ℚ) (prec : ℕ) (hprec : 1 ≤ prec)
    (h : pyStrip s = fmtFixedCore q prec) :
    parseFloat? s = some ((round (q * (10 : ℚ) ^ prec) : ℚ) / (10 : ℚ) ^ prec) := by
  unfold parseFloat?
  rw [h]
  unfold fmtFixedCore
  set m := round (q * (10 : ℚ) ^ prec) with hm
  by_cases hneg : m < 0
  · rw [if_pos hneg]
    simp only [parseUFloat_fmt_core m prec hprec, Option.map_some]
    rw [if_pos trivial]
    show some (-((m.natAbs : ℚ) / (10 : ℚ) ^ prec)) = some ((m : ℚ) / (10 : ℚ) ^ prec)
    congr 1
    have h1 : (m.natAbs : ℤ) = -m := by omega
    have h2 := congrArg (fun z : ℤ => (z : ℚ)) h1
    simp only [Int.cast_natCast, Int.cast_neg] at h2
    rw [h2]
    ring
  · rw [if_neg hneg]
    obtain ⟨c, cs, hcons⟩ := List.exists_cons_of_ne_nil
      (natToChars_ne_nil (m.natAbs / 10 ^ prec))
    have hprops := natToChars_props (m.natAbs / 10 ^ prec) c
      (hcons ▸ List.mem_cons_self c cs)
    rw [hcons, List.cons_append]
    simp only [if_neg hprops.2.2.1, if_neg hprops.2.2.2.1]
    rw [← List.cons_append, ← hcons, parseUFloat_fmt_core m prec hprec]
    congr 1
    have h1 : (m.natAbs : ℤ) = m := by omega
    have h2 := congrArg (fun z : ℤ => (z : ℚ)) h1
    simp only [Int.cast_natCast] at h2
    rw [h2]

theorem pySplitAux_word (w : List Char) (hw : ∀ c ∈ w, c.isWhitespace = false) :
    ∀ (l cur : List Char), pySplitAux (w ++ l) cur = pySplitAux l (w.reverse ++ cur) := by
  induction w with
  | nil => intro l cur; simp
  | cons c w' ih =>
    intro l cur
    rw [List.cons_append]
    show (if c.isWhitespace then _ else pySplitAux (w' ++ l) (c :: cur)) = _
    rw [if_neg (by rw [hw c (List.mem_cons_self c w')]; simp)]
    rw [ih (fun d hd => hw d (List.mem_cons_of_mem c hd)) l (c :: cur)]
    rw [List.reverse_cons, List.append_assoc]
    rfl

theorem pySplit_word_space (w l : List Char) (hne : w ≠ [])
    (hw : ∀ c ∈ w, c.isWhitespace = false) :
    pySplit (w ++ ' ' :: l) = w :: pySplit l := by
  unfold pySplit
  rw [pySplitAux_word w hw (' ' :: l) [], List.append_nil]
  show (if (' ').isWhitespace then
      (if w.reverse = [] then pySplitAux l [] else w.reverse.reverse :: pySplitAux l [])
    else _) = _
  rw [if_pos (by decide), if_neg (by simpa using hne), List.reverse_reverse]

theorem pySplit_word (w : List Char) (hne : w ≠ [])
    (hw : ∀ c ∈ w, c.isWhitespace = false) :
    pySplit w = [w] := by
  unfold pySplit
  conv_lhs => rw [← List.append_nil w]
  rw [pySplitAux_word w hw [] [], List.append_nil]
  show (if w.reverse = [] then [] else [w.reverse.reverse]) = [w]
  rw [if_neg (by simpa using hne), List.reverse_reverse]

theorem pySplit_replicate_space (k : ℕ) (l : List Char) :
    pySplit (List.replicate k ' ' ++ l) = pySplit l := by
  induction k with
  | zero => rfl
  | succ k ih =>
    rw [List.replicate_succ, List.cons_append]
    show pySplitAux (' ' :: (List.replicate k ' ' ++ l)) [] = pySplit l
    show (if (' ').isWhitespace then
        (if ([] : List Char) = [] then pySplitAux (List.replicate k ' ' ++ l) [] else _)
      else _) = pySplit l
    rw [if_pos (by decide), if_pos rfl]
    exact ih

theorem fmtFixedCore_ne_nil (q : ℚ) (prec : ℕ) : fmtFixedCore q prec ≠ [] := by
  unfold fmtFixedCore
  by_cases h : round (q * (10 : ℚ) ^ prec) < 0
  · rw [if_pos h]
    simp
  · rw [if_neg h]
    simp [natToChars_ne_nil]

theorem pySplit_padLeft_word (w : ℕ) (core l : List Char) (hne : core ≠ [])
    (hcore : ∀ c ∈ core, c.isWhitespace = false) :
    pySplit (padLeft w core ++ ' ' :: l) = core :: pySplit l := by
  unfold padLeft
  rw [List.append_assoc, pySplit_replicate_space, pySplit_word_space core l hne hcore]

theorem pySplit_padLeft_last (w : ℕ) (core : List Char) (hne : core ≠ [])
    (hcore : ∀ c ∈ core, c.isWhitespace = false) :
    pySplit (padLeft w core) = [core] := by
  unfold padLeft
  rw [pySplit_replicate_space, pySplit_word core hne hcore]

theorem pySplit_writeBoxLine (b : ℚ × ℚ × ℚ) :
    pySplit (writeBoxLine b)
      = [fmtFixedCore b.1 5, fmtFixedCore b.2.1 5, fmtFixedCore b.2.2 5] := by
  unfold writeBoxLine fmtFixed
  rw [List.append_assoc, List.cons_append]
  rw [pySplit_padLeft_word _ _ _ (fmtFixedCore_ne_nil _ _) (fmtFixedCore_no_ws _ _),
    pySplit_padLeft_word _ _ _ (fmtFixedCore_ne_nil _ _) (fmtFixedCore_no_ws _ _),
    pySplit_padLeft_last _ _ (fmtFixedCore_ne_nil _ _) (fmtFixedCore_no_ws _ _)]

/-! ### Validity of a structure for the serialize/parse round trip -/

/-- The integer prints in at most 5 characters, so the 5-wide field keeps
the fixed-column layout. -/
def intFits5 (i : ℤ) : Bool :=
  decide ((intToChars i).length ≤ 5)

/-- A residue/atom name survives the 5-wide right-aligned field: at most
5 characters, stable under stripping, and single-line. -/
def nameOk (nm : List Char) : Bool :=
  decide (nm.length ≤ 5 ∧ pyStrip nm = nm ∧ '\n' ∉ nm)

/-- The coordinate's rounded value prints in at most 8 characters in the
`%8.3f` field. -/
def coordOk (q : ℚ) : Bool :=
  decide (-(1000000 : ℤ) < round (q * (10 : ℚ) ^ (3 : ℕ)) ∧
    round (q * (10 : ℚ) ^ (3 : ℕ)) < 10000000)

/-- Per-atom validity for the round trip. -/
def atomOk (a : AtomRecord) : Bool :=
  intFits5 a.resid && nameOk a.resname && nameOk a.atomname && intFits5 a.atomnr &&
    coordOk a.x && coordOk a.y && coordOk a.z

/-- A valid structure: single-line title and per-atom validity.  This is
the "valid Structure" of the claim: every field fits the fixed-width
layout `write_gro` emits. -/
def groValid (s : GroStructure) : Bool :=
  decide ('\n' ∉ s.title) && s.atoms.all atomOk

/-- Coordinate rounding performed by a serialize/parse round trip. -/
def groRoundAtom (a : AtomRecord) : AtomRecord :=
  { a with
    x := (round (a.x * (10 : ℚ) ^ (3 : ℕ)) : ℚ) / (10 : ℚ) ^ (3 : ℕ)
    y := (round (a.y * (10 : ℚ) ^ (3 : ℕ)) : ℚ) / (10 : ℚ) ^ (3 : ℕ)
    z := (round (a.z * (10 : ℚ) ^ (3 : ℕ)) : ℚ) / (10 : ℚ) ^ (3 : ℕ) }

/-- Box rounding performed by a serialize/parse round trip. -/
def groRoundBox (b : ℚ × ℚ × ℚ) : ℚ × ℚ × ℚ :=
  ((round (b.1 * (10 : ℚ) ^ (5 : ℕ)) : ℚ) / (10 : ℚ) ^ (5 : ℕ),
   (round (b.2.1 * (10 : ℚ) ^ (5 : ℕ)) : ℚ) / (10 : ℚ) ^ (5 : ℕ),
   (round (b.2.2 * (10 : ℚ) ^ (5 : ℕ)) : ℚ) / (10 : ℚ) ^ (5 : ℕ))

theorem parseFloat?_fmtFixed (q : ℚ) (prec w : ℕ) (hprec : 1 ≤ prec) :
    parseFloat? (fmtFixed q prec w)
      = some ((round (q * (10 : ℚ) ^ prec) : ℚ) / (10 : ℚ) ^ prec) := by
  apply parseFloat?_of_strip _ _ _ hprec
  unfold fmtFixed
  rw [pyStrip_padLeft]
  exact pyStrip_no_ws _ (fmtFixedCore_no_ws q prec)

theorem parseFloat?_fmtFixedCore (q : ℚ) (prec : ℕ) (hprec : 1 ≤ prec) :
    parseFloat? (fmtFixedCore q prec)
      = some ((round (q * (10 : ℚ) ^ prec) : ℚ) / (10 : ℚ) ^ prec) := by
  apply parseFloat?_of_strip _ _ _ hprec
  exact pyStrip_no_ws _ (fmtFixedCore_no_ws q prec)

theorem fmtFixed_length_8 (q : ℚ) (h : coordOk q = true) :
    (fmtFixed q 3 8).length = 8 := by
  rw [coordOk, decide_eq_true_eq] at h
  have hcore : (fmtFixedCore q 3).length ≤ 8 := by
    unfold fmtFixedCore
    set m := round (q * (10 : ℚ) ^ (3 : ℕ)) with hm
    have hmod : m.natAbs % 10 ^ 3 < 10 ^ 3 := Nat.mod_lt _ (by norm_num)
    have hfrac : (zeroPad 3 (natToChars (m.natAbs % 10 ^ 3))).length = 3 :=
      zeroPad_length _ _ (natToChars_length_le 3 _ (by omega) hmod)
    by_cases hneg : m < 0
    · rw [if_pos hneg]
      have habs : m.natAbs < 10 ^ 6 := by omega
      have hdiv : m.natAbs / 10 ^ 3 < 10 ^ 3 := by omega
      have hlen : (natToChars (m.natAbs / 10 ^ 3)).length ≤ 3 :=
        natToChars_length_le 3 _ (by omega) hdiv
      simp only [List.length_cons, List.length_append, hfrac]
      omega
    · rw [if_neg hneg]
      have habs : m.natAbs < 10 ^ 7 := by omega
      have hdiv : m.natAbs / 10 ^ 3 < 10 ^ 4 := by omega
      have hlen : (natToChars (m.natAbs / 10 ^ 3)).length ≤ 4 :=
        natToChars_length_le 4 _ (by omega) hdiv
      simp only [List.length_cons, List.length_append, hfrac]
      omega
  unfold fmtFixed
  rw [padLeft_length]
  omega

theorem nameOk_strip (nm : List Char) (h : nameOk nm = true) :
    pyStrip (padLeft 5 nm) = nm := by
  rw [nameOk, decide_eq_true_eq] at h
  rw [pyStrip_padLeft]
  exact h.2.1

theorem fixedParse_writeAtomLine (a : AtomRecord) (h : atomOk a = true) :
    fixedParse (writeAtomLine a) = some (groRoundAtom a) := by
  simp only [atomOk, Bool.and_eq_true] at h
  obtain ⟨⟨⟨⟨⟨⟨h1, h2⟩, h3⟩, h4⟩, h5⟩, h6⟩, h7⟩ := h
  have l1 : (fmtInt a.resid 5).length = 5 := by
    rw [intFits5, decide_eq_true_eq] at h1
    unfold fmtInt
    rw [padLeft_length]
    omega
  have l2 : (padLeft 5 a.resname).length = 5 := by
    rw [nameOk, decide_eq_true_eq] at h2
    rw [padLeft_length]
    omega
  have l3 : (padLeft 5 a.atomname).length = 5 := by
    rw [nameOk, decide_eq_true_eq] at h3
    rw [padLeft_length]
    omega
  have l4 : (fmtInt a.atomnr 5).length = 5 := by
    rw [intFits5, decide_eq_true_eq] at h4
    unfold fmtInt
    rw [padLeft_length]
    omega
  have l5 : (fmtFixed a.x 3 8).length = 8 := fmtFixed_length_8 _ h5
  have l6 : (fmtFixed a.y 3 8).length = 8 := fmtFixed_length_8 _ h6
  have l7 : (fmtFixed a.z 3 8).length = 8 := fmtFixed_length_8 _ h7
  have hL : writeAtomLine a = fmtInt a.resid 5 ++ (padLeft 5 a.resname ++
      (padLeft 5 a.atomname ++ (fmtInt a.atomnr 5 ++ (fmtFixed a.x 3 8 ++
      (fmtFixed a.y 3 8 ++ fmtFixed a.z 3 8))))) := by
    simp [writeAtomLine, List.append_assoc]
  have d1 : (writeAtomLine a).drop 5 = padLeft 5 a.resname ++
      (padLeft 5 a.atomname ++ (fmtInt a.atomnr 5 ++ (fmtFixed a.x 3 8 ++
      (fmtFixed a.y 3 8 ++ fmtFixed a.z 3 8)))) := by
    rw [hL]
    exact List.drop_left' l1
  have d2 : (writeAtomLine a).drop 10 = padLeft 5 a.atomname ++
      (fmtInt a.atomnr 5 ++ (fmtFixed a.x 3 8 ++
      (fmtFixed a.y 3 8 ++ fmtFixed a.z 3 8))) := by
    have hd : (writeAtomLine a).drop 10 = ((writeAtomLine a).drop 5).drop 5 := by
      rw [List.drop_drop]
    rw [hd, d1]
    exact List.drop_left' l2
  have d3 : (writeAtomLine a).drop 15 = fmtInt a.atomnr 5 ++ (fmtFixed a.x 3 8 ++
      (fmtFixed a.y 3 8 ++ fmtFixed a.z 3 8)) := by
    have hd : (writeAtomLine a).drop 15 = ((writeAtomLine a).drop 10).drop 5 := by
      rw [List.drop_drop]
    rw [hd, d2]
    exact List.drop_left' l3
  have d4 : (writeAtomLine a).drop 20 = fmtFixed a.x 3 8 ++
      (fmtFixed a.y 3 8 ++ fmtFixed a.z 3 8) := by
    have hd : (writeAtomLine a).drop 20 = ((writeAtomLine a).drop 15).drop 5 := by
      rw [List.drop_drop]
    rw [hd, d3]
    exact List.drop_left' l4
  have d5 : (writeAtomLine a).drop 28 = fmtFixed a.y 3 8 ++ fmtFixed a.z 3 8 := by
    have hd : (writeAtomLine a).drop 28 = ((writeAtomLine a).drop 20).drop 8 := by
      rw [List.drop_drop]
    rw [hd, d4]
    exact List.drop_left' l5
  have d6 : (writeAtomLine a).drop 36 = fmtFixed a.z 3 8 := by
    have hd : (writeAtomLine a).drop 36 = ((writeAtomLine a).drop 28).drop 8 := by
      rw [List.drop_drop]
    rw [hd, d5]
    exact List.drop_left' l6
  have t1 : pySlice (writeAtomLine a) 0 5 = fmtInt a.resid 5 := by
    unfold pySlice
    rw [List.drop_zero, hL]
    exact List.take_left' l1
  have t2 : pySlice (writeAtomLine a) 5 10 = padLeft 5 a.resname := by
    unfold pySlice
    rw [d1]
    exact List.take_left' l2
  have t3 : pySlice (writeAtomLine a) 10 15 = padLeft 5 a.atomname := by
    unfold pySlice
    rw [d2]
    exact List.take_left' l3
  have t4 : pySlice (writeAtomLine a) 15 20 = fmtInt a.atomnr 5 := by
    unfold pySlice
    rw [d3]
    exact List.take_left' l4
  have t5 : pySlice (writeAtomLine a) 20 28 = fmtFixed a.x 3 8 := by
    unfold pySlice
    rw [d4]
    exact List.take_left' l5
  have t6 : pySlice (writeAtomLine a) 28 36 = fmtFixed a.y 3 8 := by
    unfold pySlice
    rw [d5]
    exact List.take_left' l6
  have t7 : pySlice (writeAtomLine a) 36 44 = fmtFixed a.z 3 8 := by
    unfold pySlice
    rw [d6]
    exact List.take_of_length_le (le_of_eq l7)
  have px : parseFloat? (fmtFixed a.x 3 8)
      = some ((round (a.x * (10 : ℚ) ^ (3 : ℕ)) : ℚ) / (10 : ℚ) ^ (3 : ℕ)) :=
    parseFloat?_fmtFixed _ _ _ (by omega)
  have py : parseFloat? (fmtFixed a.y 3 8)
      = some ((round (a.y * (10 : ℚ) ^ (3 : ℕ)) : ℚ) / (10 : ℚ) ^ (3 : ℕ)) :=
    parseFloat?_fmtFixed _ _ _ (by omega)
  have pz : parseFloat? (fmtFixed a.z 3 8)
      = some ((round (a.z * (10 : ℚ) ^ (3 : ℕ)) : ℚ) / (10 : ℚ) ^ (3 : ℕ)) :=
    parseFloat?_fmtFixed _ _ _ (by omega)
  unfold fixedParse
  rw [t1, t2, t3, t4, t5, t6, t7, parseInt?_fmtInt, parseInt?_fmtInt,
    nameOk_strip _ h2, nameOk_strip _ h3, px, py, pz]
  rfl

theorem parseAtomLine_writeAtomLine (a : AtomRecord) (h : atomOk a = true) :
    parseAtomLine (writeAtomLine a) = .ok (groRoundAtom a) := by
  unfold parseAtomLine
  rw [fixedParse_writeAtomLine a h]

theorem parseAtoms_map_write (atoms : List AtomRecord) (h : atoms.all atomOk = true) :
    parseAtoms (atoms.map writeAtomLine) = .ok (atoms.map groRoundAtom) := by
  induction atoms with
  | nil => rfl
  | cons a tl ih =>
    rw [List.all_cons, Bool.and_eq_true] at h
    rw [List.map_cons, List.map_cons]
    show (do
      let x ← parseAtomLine (writeAtomLine a)
      let rest ← parseAtoms (tl.map writeAtomLine)
      pure (x :: rest)) = Except.ok (groRoundAtom a :: tl.map groRoundAtom)
    rw [parseAtomLine_writeAtomLine a h.1, ih h.2]
    rfl

/-- Claim C3: for every valid structure (fields fit the fixed-width
layout), parsing the serialization succeeds and yields the structure with
the same title, atom count, atom order, and residue/atom names and
numbers preserved exactly; only coordinates (and box) are rounded to the
written precision (3 and 5 decimals respectively). -/
theorem c3_gro_round_trip (s : GroStructure) (h : groValid s = true) :
    read_gro (write_gro s)
        = .ok ⟨s.title, s.atoms.map groRoundAtom, groRoundBox s.box⟩ ∧
    (s.atoms.map groRoundAtom).length = s.atoms.length ∧
    (∀ j, j < s.atoms.length →
      ((s.atoms.map groRoundAtom).getD j dfltAtom).resname
          = (s.atoms.getD j dfltAtom).resname ∧
      ((s.atoms.map groRoundAtom).getD j dfltAtom).atomname
          = (s.atoms.getD j dfltAtom).atomname ∧
      ((s.atoms.map groRoundAtom).getD j dfltAtom).resid
          = (s.atoms.getD j dfltAtom).resid ∧
      ((s.atoms.map groRoundAtom).getD j dfltAtom).atomnr
          = (s.atoms.getD j dfltAtom).atomnr) := by
  rw [groValid, Bool.and_eq_true, decide_eq_true_eq] at h
  obtain ⟨htitle, hatoms⟩ := h
  refine ⟨?_, by simp, ?_⟩
  · set n := s.atoms.length with hn
    have hlines : write_gro s = s.title :: fmtInt (n : ℤ) 5 ::
        (s.atoms.map writeAtomLine ++ [writeBoxLine s.box]) := rfl
    have hlen : (write_gro s).length = n + 3 := by
      rw [hlines]
      simp
    unfold read_gro
    rw [if_neg (by omega)]
    have hcount : (write_gro s).getD 1 [] = fmtInt (n : ℤ) 5 := by
      rw [hlines]
      rfl
    have hparsecount : parseInt? (pyStrip ((write_gro s).getD 1 [])) = some (n : ℤ) := by
      rw [hcount]
      apply parseInt?_of_strip
      unfold fmtInt
      rw [pyStrip_padLeft, pyStrip_no_ws _ (intToChars_no_ws _),
        pyStrip_no_ws _ (intToChars_no_ws _)]
    rw [hparsecount]
    have hdrop2 : (write_gro s).drop 2 = s.atoms.map writeAtomLine ++ [writeBoxLine s.box] := by
      rw [hlines]
      rfl
    have htoNat : ((n : ℤ)).toNat = n := Int.toNat_natCast n
    have hatomlines : List.take n (List.drop 2 (write_gro s)) = s.atoms.map writeAtomLine := by
      rw [hdrop2]
      exact List.take_left' (by simp [hn])
    have hcond : ¬((n : ℤ) < 0 ∨ (s.atoms.map writeAtomLine).length ≠ n) := by
      push_neg
      exact ⟨by omega, by simp [hn]⟩
    have hdropbox : List.drop (2 + n) (write_gro s) = [writeBoxLine s.box] := by
      have hsplit : (write_gro s).drop (2 + n) = ((write_gro s).drop 2).drop n := by
        rw [List.drop_drop]
      rw [hsplit, hdrop2]
      exact List.drop_left' (by simp [hn])
    have hb1 : parseFloat? (fmtFixedCore s.box.1 5)
        = some ((round (s.box.1 * (10 : ℚ) ^ (5 : ℕ)) : ℚ) / (10 : ℚ) ^ (5 : ℕ)) :=
      parseFloat?_fmtFixedCore _ _ (by omega)
    have hb2 : parseFloat? (fmtFixedCore s.box.2.1 5)
        = some ((round (s.box.2.1 * (10 : ℚ) ^ (5 : ℕ)) : ℚ) / (10 : ℚ) ^ (5 : ℕ)) :=
      parseFloat?_fmtFixedCore _ _ (by omega)
    have hb3 : parseFloat? (fmtFixedCore s.box.2.2 5)
        = some ((round (s.box.2.2 * (10 : ℚ) ^ (5 : ℕ)) : ℚ) / (10 : ℚ) ^ (5 : ℕ)) :=
      parseFloat?_fmtFixedCore _ _ (by omega)
    have htitle0 : (write_gro s).getD 0 [] = s.title := by
      rw [hlines]
      rfl
    simp only [htoNat, hatomlines, if_neg hcond, parseAtoms_map_write s.atoms hatoms,
      hdropbox, List.head?_cons, pySplit_writeBoxLine, List.getD_cons_zero,
      List.getD_cons_succ, hb1, hb2, hb3, htitle0, List.length_cons, List.length_nil]
    rw [if_neg (by omega)]
    rfl
  · intro j hj
    have hmap : (s.atoms.map groRoundAtom).getD j dfltAtom
        = groRoundAtom (s.atoms.getD j dfltAtom) := by
      rw [List.getD_eq_getElem?_getD, List.getD_eq_getElem?_getD, List.getElem?_map]
      rw [List.getElem?_eq_getElem hj]
      rfl
    rw [hmap]
    exact ⟨rfl, rfl, rfl, rfl⟩

/-- Witness for C3 at a concrete one-atom structure. -/
theorem c3_witness :
    read_gro (write_gro ⟨"test".toList,
        [⟨1, "ASP".toList, "CA".toList, 1, 1/10, 1/5, 3/10⟩], (5, 5, 5)⟩)
      = .ok ⟨"test".toList,
          [⟨1, "ASP".toList, "CA".toList, 1, 1/10, 1/5, 3/10⟩].map groRoundAtom,
          groRoundBox (5, 5, 5)⟩ :=
  (c3_gro_round_trip ⟨"test".toList,
    [⟨1, "ASP".toList, "CA".toList, 1, 1/10, 1/5, 3/10⟩], (5, 5, 5)⟩ (by decide)).1
